import Mathlib

/-!
Shallow embedding of the docx-mcp ingestion and query engine
(crates/lib/docx-core) and proofs about its specification claims.

The Rust sources embedded here:
  * docx-store/src/models.rs   — the canonical data model,
  * docx-store/src/schema.rs   — table names and symbol-key construction,
  * docx-core/src/control/ingest.rs   — dedup, edge derivation,
  * docx-core/src/control/metadata.rs — project upsert and alias merge,
  * docx-core/src/control/data.rs     — advanced search and adjacency,
  * docx-core/src/store/surreal.rs    — store-level operations,
  * docx-core/src/parsers/csharp_xml.rs — doc-id parsing,
  * docx-core/src/services.rs  — the tenant registry (as a transition system).

Rust `HashMap`s that are only ever written with `insert` and read with `get`
are modelled as cons-lists with first-match lookup (the newest insertion
shadows older ones, exactly like `insert` overwriting). `HashSet`s used as
seen-sets are modelled as lists with membership tests. Database tables are
modelled as association lists from record id to row, with UPSERT replacing
the row at an existing id and appending otherwise.
-/

namespace Docx

/-- Minimal model of `serde_json::Value` (only the shapes the embedded code
constructs or inspects). -/
inductive Json where
  | null : Json
  | bool (b : Bool) : Json
  | num (n : Int) : Json
  | str (s : String) : Json
  | arr (xs : List Json) : Json
  | obj (fields : List (String × Json)) : Json
deriving Repr

/-- Looks up a field of a JSON object; `none` on non-objects or missing keys.
Models `value.get(key)` / SurrealDB field access `extra.key`. -/
def Json.get : Json → String → Option Json
  | .obj fields, key => (fields.find? (fun p => p.1 == key)).map (·.2)
  | _, _ => none

/-- Inserts a field into a JSON object map, replacing an existing binding
(models `serde_json::Map::insert`). -/
def jsonObjInsert (fields : List (String × Json)) (key : String) (value : Json) :
    List (String × Json) :=
  if fields.any (fun p => p.1 == key) then
    fields.map (fun p => if p.1 == key then (key, value) else p)
  else
    fields ++ [(key, value)]

/-- models.rs `TypeRef` (recursive through `generics`, hence an inductive). -/
inductive TypeRef where
  | mk (display : Option String) (canonical : Option String)
       (language : Option String) (symbol_key : Option String)
       (generics : List TypeRef) (modifiers : List String) : TypeRef

/-- Field accessor for `TypeRef.symbol_key`. -/
def TypeRef.symbol_key : TypeRef → Option String
  | .mk _ _ _ sk _ _ => sk

/-- models.rs `Param`. -/
structure Param where
  name : String
  type_ref : Option TypeRef := none
  default_value : Option String := none
  is_optional : Option Bool := none

/-- models.rs `TypeParam`. -/
structure TypeParam where
  name : String
  constraints : List String := []

/-- models.rs `AttributeRef`. -/
structure AttributeRef where
  name : String
  args : List String := []
  target : Option String := none

/-- models.rs `SourceId`. -/
structure SourceId where
  kind : String
  value : String

/-- models.rs `Symbol`: the canonical per-identifier record. -/
structure Symbol where
  id : Option String := none
  project_id : String
  language : Option String := none
  symbol_key : String
  kind : Option String := none
  name : Option String := none
  qualified_name : Option String := none
  display_name : Option String := none
  signature : Option String := none
  signature_hash : Option String := none
  visibility : Option String := none
  is_static : Option Bool := none
  is_async : Option Bool := none
  is_const : Option Bool := none
  is_deprecated : Option Bool := none
  since : Option String := none
  stability : Option String := none
  source_path : Option String := none
  line : Option Nat := none
  col : Option Nat := none
  return_type : Option TypeRef := none
  params : List Param := []
  type_params : List TypeParam := []
  attributes : List AttributeRef := []
  source_ids : List SourceId := []
  doc_summary : Option String := none
  extra : Option Json := none

/-- models.rs `SeeAlso`. -/
structure SeeAlso where
  label : Option String := none
  target : String
  target_kind : Option String := none

/-- models.rs `DocInherit`. -/
structure DocInherit where
  cref : Option String := none
  path : Option String := none

/-- models.rs `DocException`. -/
structure DocException where
  type_ref : Option TypeRef := none
  description : Option String := none

/-- models.rs `DocParam`. -/
structure DocParam where
  name : String
  description : Option String := none
  type_ref : Option TypeRef := none

/-- models.rs `DocTypeParam`. -/
structure DocTypeParam where
  name : String
  description : Option String := none

/-- models.rs `DocExample`. -/
structure DocExample where
  lang : Option String := none
  code : Option String := none
  caption : Option String := none

/-- models.rs `DocSection`. -/
structure DocSection where
  title : String
  body : String

/-- models.rs `DocBlock`: documentation payload attached to a symbol. -/
structure DocBlock where
  id : Option String := none
  project_id : String
  ingest_id : Option String := none
  symbol_key : Option String := none
  language : Option String := none
  source_kind : Option String := none
  doc_hash : Option String := none
  summary : Option String := none
  remarks : Option String := none
  returns : Option String := none
  value : Option String := none
  params : List DocParam := []
  type_params : List DocTypeParam := []
  exceptions : List DocException := []
  examples : List DocExample := []
  notes : List String := []
  warnings : List String := []
  safety : Option String := none
  panics : Option String := none
  errors : Option String := none
  see_also : List SeeAlso := []
  deprecated : Option String := none
  inherit_doc : Option DocInherit := none
  sections : List DocSection := []
  raw : Option String := none
  extra : Option Json := none

/-- models.rs `Project`. -/
structure Project where
  id : Option String := none
  project_id : String
  name : Option String := none
  language : Option String := none
  root_path : Option String := none
  description : Option String := none
  aliases : List String := []
  search_text : Option String := none
  extra : Option Json := none

/-- models.rs `Ingest`: a run record. -/
structure Ingest where
  id : Option String := none
  project_id : String
  git_commit : Option String := none
  git_branch : Option String := none
  git_tag : Option String := none
  project_version : Option String := none
  source_modified_at : Option String := none
  ingested_at : Option String := none
  extra : Option Json := none

/-- models.rs `DocSource`. -/
structure DocSource where
  id : Option String := none
  project_id : String
  ingest_id : Option String := none
  language : Option String := none
  source_kind : Option String := none
  path : Option String := none
  tool_version : Option String := none
  hash : Option String := none
  source_modified_at : Option String := none
  extra : Option Json := none

/-- models.rs `RelationRecord`: a directed edge `in_id -> out_id`. -/
structure RelationRecord where
  id : Option String := none
  in_id : String
  out_id : String
  project_id : String
  ingest_id : Option String := none
  kind : Option String := none
  extra : Option Json := none

/-- schema.rs `TABLE_SYMBOL`. -/
def TABLE_SYMBOL : String := "symbol"

/-- schema.rs `TABLE_DOC_BLOCK`. -/
def TABLE_DOC_BLOCK : String := "doc_block"

/-- schema.rs `TABLE_DOC_SOURCE`. -/
def TABLE_DOC_SOURCE : String := "doc_source"

/-- schema.rs `make_symbol_key`: the stable external key format
`language|project_id|local_id`. -/
def make_symbol_key (language project_id local_id : String) : String :=
  language ++ "|" ++ project_id ++ "|" ++ local_id

/-- schema.rs `make_csharp_symbol_key`. -/
def make_csharp_symbol_key (project_id doc_id : String) : String :=
  make_symbol_key "csharp" project_id doc_id

/-- Modelled from the spec: `make_record_id` is imported by
control/ingest.rs from docx-store's schema module but its definition is
absent from the provided sources. Spec section 3 fixes relation endpoint
encoding as the string `"{table}:{id}"` ("Edge endpoints are fully
qualified as `\x7btable\x7d:\x7bid\x7d`"). -/
def make_record_id (table id : String) : String :=
  table ++ ":" ++ id

/-- Character-level model of `str::to_lowercase` (and SurrealDB
`string::lowercase`); faithful on ASCII, which is all the embedded data
uses. -/
def strLower (s : String) : String :=
  String.mk (s.toList.map Char.toLower)

/-- Character-level model of `str::trim`: drop whitespace from both ends. -/
def strTrim (s : String) : String :=
  String.mk
    (((s.toList.dropWhile Char.isWhitespace).reverse.dropWhile
        Char.isWhitespace).reverse)

/-- Character-level model of `str::starts_with`. -/
def strStartsWith (s pre : String) : Bool :=
  pre.toList.isPrefixOf s.toList

/-- Is `needle` a contiguous infix of the character list? -/
def isInfixOfCh (needle : List Char) : List Char → Bool
  | [] => needle.isEmpty
  | c :: rest => needle.isPrefixOf (c :: rest) || isInfixOfCh needle rest

/-- Character-level model of `str::contains` (and SurrealDB
`string::contains`): substring containment. -/
def strContains (haystack needle : String) : Bool :=
  isInfixOfCh needle.toList haystack.toList

/-- surreal.rs `StoreError`. -/
inductive StoreError where
  | surreal (message : String) : StoreError
  | invalidInput (message : String) : StoreError
deriving Repr, DecidableEq

/-- surreal.rs `ensure_non_empty`. -/
def ensure_non_empty (value field : String) : Except StoreError Unit :=
  if value = "" then .error (.invalidInput (field ++ " is required")) else .ok ()

/-- A database table: an association list from record id to row. -/
abbrev Table (α : Type) := List (String × α)

/-- UPSERT semantics on a table: replace the row at an existing id,
append a new row otherwise. -/
def tableUpsert {α : Type} (t : Table α) (k : String) (v : α) : Table α :=
  if t.any (fun p => p.1 == k) then
    t.map (fun p => if p.1 == k then (k, v) else p)
  else
    t ++ [(k, v)]

/-- surreal.rs `SurrealDocStore::upsert_symbol`: validates a non-empty
`symbol_key`, defaults the record id to the symbol key, and UPSERTs the
row under that id. -/
def upsert_symbol (t : Table Symbol) (symbol : Symbol) :
    Except StoreError (Table Symbol × Symbol) :=
  match ensure_non_empty symbol.symbol_key "symbol_key" with
  | .error e => .error e
  | .ok _ =>
    let id := symbol.id.getD symbol.symbol_key
    let symbol := { symbol with id := some id }
    .ok (tableUpsert t id symbol, symbol)

/-- Loop body of ingest.rs `dedupe_symbols`, with the `HashSet` of seen
keys as an explicit accumulator. -/
def dedupeGo (seen : List String) : List Symbol → List Symbol
  | [] => []
  | s :: rest =>
    if s.symbol_key ∈ seen then dedupeGo seen rest
    else s :: dedupeGo (s.symbol_key :: seen) rest

/-- ingest.rs `dedupe_symbols`: keeps the first occurrence per `symbol_key`. -/
def dedupe_symbols (symbols : List Symbol) : List Symbol :=
  dedupeGo [] symbols

/-- Loop body of ingest.rs `DocxControlPlane::store_symbols`: upserts each
symbol in order, aborting on the first error. -/
def store_symbols_go (t : Table Symbol) :
    List Symbol → Except StoreError (Table Symbol × List Symbol)
  | [] => .ok (t, [])
  | s :: rest =>
    match upsert_symbol t s with
    | .error e => .error e
    | .ok (t', s') =>
      match store_symbols_go t' rest with
      | .error e => .error e
      | .ok (t'', stored) => .ok (t'', s' :: stored)

/-- ingest.rs `DocxControlPlane::store_symbols`: dedup by `symbol_key`
(first occurrence wins), then upsert in declared order. -/
def store_symbols (t : Table Symbol) (symbols : List Symbol) :
    Except StoreError (Table Symbol × List Symbol) :=
  store_symbols_go t (dedupe_symbols symbols)

/-- The `symbol_map` of ingest.rs `build_documents_edges`: `symbol_key` to
symbol record id, for symbols that carry an id. Later insertions shadow
earlier ones, as with `HashMap::insert`. -/
def symbolKeyToRecordId (symbols : List Symbol) : List (String × String) :=
  symbols.foldl
    (fun m s =>
      match s.id with
      | some id => (s.symbol_key, make_record_id TABLE_SYMBOL id) :: m
      | none => m)
    []

/-- ingest.rs `build_documents_edges`: one `documents` edge per doc block
whose `symbol_key` resolves to a stored symbol of this ingest. -/
def build_documents_edges (symbols : List Symbol) (blocks : List DocBlock)
    (project_id : String) (ingest_id : Option String) : List RelationRecord :=
  let symbol_map := symbolKeyToRecordId symbols
  blocks.filterMap fun block =>
    block.id.bind fun block_id =>
      block.symbol_key.bind fun symbol_key =>
        (List.lookup symbol_key symbol_map).map fun symbol_id =>
          { id := none
            in_id := make_record_id TABLE_DOC_BLOCK block_id
            out_id := symbol_id
            project_id := project_id
            ingest_id := ingest_id
            kind := none
            extra := none }

/-- ingest.rs `build_observed_in_edges`: one edge per stored symbol to the
freshly created doc source, with kind `doc_source`. -/
def build_observed_in_edges (symbols : List Symbol) (project_id : String)
    (ingest_id : Option String) (doc_source_id : String) : List RelationRecord :=
  let doc_source_record := make_record_id TABLE_DOC_SOURCE doc_source_id
  symbols.filterMap fun symbol =>
    symbol.id.map fun symbol_id =>
      { id := none
        in_id := make_record_id TABLE_SYMBOL symbol_id
        out_id := doc_source_record
        project_id := project_id
        ingest_id := ingest_id
        kind := some "doc_source"
        extra := none }

/-- ingest.rs `SymbolRelations`. -/
structure SymbolRelations where
  member_of : List RelationRecord := []
  contains : List RelationRecord := []
  returns : List RelationRecord := []
  param_types : List RelationRecord := []
  implements : List RelationRecord := []

/-- The `symbol_by_qualified` map of ingest.rs `build_symbol_relations`. -/
def symbolByQualified (symbols : List Symbol) : List (String × String) :=
  symbols.foldl
    (fun m s =>
      match s.id, s.qualified_name with
      | some id, some qualified_name => (qualified_name, id) :: m
      | _, _ => m)
    []

/-- The `symbol_by_key` map of ingest.rs `build_symbol_relations` and
`build_doc_block_relations`: `symbol_key` to bare record id. -/
def symbolByKey (symbols : List Symbol) : List (String × String) :=
  symbols.foldl
    (fun m s =>
      match s.id with
      | some id => (s.symbol_key, id) :: m
      | none => m)
    []

/-- Index of the last occurrence of `sep` in `l` (the match `rsplit_once`
splits at), or `none` when `sep` never occurs. -/
def lastMatchIdx (sep l : List Char) : Option Nat :=
  (List.range (l.length + 1)).foldl
    (fun acc i => if sep.isPrefixOf (l.drop i) then some i else acc) none

/-- The parent computation in ingest.rs `build_symbol_relations`:
`qualified.rsplit_once("::")` keeping the left half — the portion of
`qualified_name` before the last `::` — and `none` when no `::` occurs. -/
def parentOfQualified (qualified : String) : Option String :=
  match lastMatchIdx "::".toList qualified.toList with
  | some i => some (String.mk (qualified.toList.take i))
  | none => none

/-- The `member_of`/`contains` contribution of one symbol in
ingest.rs `build_symbol_relations` (both pushed together when the parent
resolves in the current ingest). -/
def memberAndContainsEdges (symbol_by_qualified : List (String × String))
    (project_id : String) (ingest_id : Option String)
    (symbol_record : String) (s : Symbol) :
    List RelationRecord × List RelationRecord :=
  match s.qualified_name.bind parentOfQualified
      |>.bind (fun parent => List.lookup parent symbol_by_qualified) with
  | some parent_id =>
    let parent_record := make_record_id TABLE_SYMBOL parent_id
    ([{ id := none, in_id := symbol_record, out_id := parent_record
        project_id := project_id, ingest_id := ingest_id
        kind := none, extra := none }],
     [{ id := none, in_id := parent_record, out_id := symbol_record
        project_id := project_id, ingest_id := ingest_id
        kind := none, extra := none }])
  | none => ([], [])

/-- Loop body of ingest.rs `build_symbol_relations` for one symbol:
membership/containment from the qualified-name parent, return and
parameter type references, and trait-impl edges, all resolved within the
current ingest. -/
def buildSymbolRelStep (symbol_by_qualified symbol_by_key : List (String × String))
    (project_id : String) (ingest_id : Option String)
    (trait_impls : List (String × List String))
    (relations : SymbolRelations) (s : Symbol) : SymbolRelations :=
  match s.id with
  | none => relations
  | some symbol_id =>
    let symbol_record := make_record_id TABLE_SYMBOL symbol_id
    let mc :=
      memberAndContainsEdges symbol_by_qualified project_id ingest_id
        symbol_record s
    let returns :=
      match s.return_type.bind (fun ty => ty.symbol_key)
          |>.bind (fun key => List.lookup key symbol_by_key) with
      | some return_id =>
        [{ id := none, in_id := symbol_record
           out_id := make_record_id TABLE_SYMBOL return_id
           project_id := project_id, ingest_id := ingest_id
           kind := none, extra := none }]
      | none => []
    let param_types := s.params.filterMap fun param =>
      (param.type_ref.bind (fun ty => ty.symbol_key)
        |>.bind (fun key => List.lookup key symbol_by_key)).map
        fun param_id =>
          { id := none, in_id := symbol_record
            out_id := make_record_id TABLE_SYMBOL param_id
            project_id := project_id, ingest_id := ingest_id
            kind := some param.name, extra := none }
    let implements :=
      match s.qualified_name.bind
          (fun qualified_name => List.lookup qualified_name trait_impls) with
      | some trait_paths =>
        trait_paths.filterMap fun trait_path =>
          (List.lookup (make_symbol_key "rust" project_id trait_path)
              symbol_by_key).map fun trait_id =>
            { id := none, in_id := symbol_record
              out_id := make_record_id TABLE_SYMBOL trait_id
              project_id := project_id, ingest_id := ingest_id
              kind := some "trait_impl", extra := none }
      | none => []
    { member_of := relations.member_of ++ mc.1
      contains := relations.contains ++ mc.2
      returns := relations.returns ++ returns
      param_types := relations.param_types ++ param_types
      implements := relations.implements ++ implements }

/-- ingest.rs `build_symbol_relations`: membership, containment, type
references, and trait impls, derived per symbol with the two lookup maps
built over the stored symbols. -/
def build_symbol_relations (symbols : List Symbol) (project_id : String)
    (ingest_id : Option String) (trait_impls : List (String × List String)) :
    SymbolRelations :=
  symbols.foldl
    (buildSymbolRelStep (symbolByQualified symbols) (symbolByKey symbols)
      project_id ingest_id trait_impls)
    {}

/-- ingest.rs `DocBlockRelations`. -/
structure DocBlockRelations where
  see_also : List RelationRecord := []
  inherits : List RelationRecord := []
  references : List RelationRecord := []

/-- ingest.rs `resolve_symbol_reference`: a target resolves either as a
literal symbol key already in the map, or through the language-specific
key constructor. -/
def resolve_symbol_reference (target : String) (language : Option String)
    (project_id : String) (symbol_by_key : List (String × String)) :
    Option String :=
  match List.lookup target symbol_by_key with
  | some id => some id
  | none =>
    match language with
    | some lang =>
      if lang = "csharp" then
        List.lookup (make_csharp_symbol_key project_id target) symbol_by_key
      else if lang = "rust" then
        List.lookup (make_symbol_key "rust" project_id target) symbol_by_key
      else none
    | none => none

/-- Loop body of ingest.rs `build_doc_block_relations` for one doc block:
`see_also`, `inherits` and `references` edges whose source is the block's
resolved symbol and whose targets resolve within the current ingest. -/
def buildDocBlockRelStep (symbol_by_key : List (String × String))
    (project_id : String) (ingest_id : Option String)
    (relations : DocBlockRelations) (block : DocBlock) : DocBlockRelations :=
  match block.symbol_key.bind
      (fun symbol_key => List.lookup symbol_key symbol_by_key) with
  | none => relations
  | some symbol_id =>
    let symbol_record := make_record_id TABLE_SYMBOL symbol_id
    let language := block.language
    let see_also := block.see_also.filterMap fun link =>
      (resolve_symbol_reference link.target language project_id
        symbol_by_key).map fun target_id =>
        { id := none, in_id := symbol_record
          out_id := make_record_id TABLE_SYMBOL target_id
          project_id := project_id, ingest_id := ingest_id
          kind := link.target_kind, extra := none }
    let inherits :=
      match block.inherit_doc with
      | none => []
      | some inherit =>
        match (inherit.cref.or inherit.path).bind fun target =>
            resolve_symbol_reference target language project_id
              symbol_by_key with
        | some target_id =>
          [{ id := none, in_id := symbol_record
             out_id := make_record_id TABLE_SYMBOL target_id
             project_id := project_id, ingest_id := ingest_id
             kind := some "inheritdoc", extra := none }]
        | none => []
    let references := block.exceptions.filterMap fun exception =>
      (exception.type_ref.bind (fun ty => ty.symbol_key)
        |>.bind (fun key => List.lookup key symbol_by_key)).map
        fun target_id =>
          { id := none, in_id := symbol_record
            out_id := make_record_id TABLE_SYMBOL target_id
            project_id := project_id, ingest_id := ingest_id
            kind := some "exception", extra := none }
    { see_also := relations.see_also ++ see_also
      inherits := relations.inherits ++ inherits
      references := relations.references ++ references }

/-- ingest.rs `build_doc_block_relations`: `see_also`, `inherits` and
`references` edges derived from doc-block metadata; every target must
resolve to a symbol stored in the same ingest, otherwise the edge is
dropped. -/
def build_doc_block_relations (symbols : List Symbol) (blocks : List DocBlock)
    (project_id : String) (ingest_id : Option String) : DocBlockRelations :=
  blocks.foldl
    (buildDocBlockRelStep (symbolByKey symbols) project_id ingest_id)
    {}

/-- control/mod.rs `ControlError`. -/
inductive ControlError where
  | parse (message : String) : ControlError
  | rustdocParse (message : String) : ControlError
  | store (e : StoreError) : ControlError
deriving Repr, DecidableEq

/-- The dedup key used by surreal.rs `merge_relation_rows`:
`(in_id, out_id, kind)`. -/
def relKey (r : RelationRecord) : String × String × Option String :=
  (r.in_id, r.out_id, r.kind)

/-- Loop body of surreal.rs `merge_relation_rows`, with the `HashSet` of
seen keys as an explicit accumulator. -/
def mergeRowsGo (seen : List (String × String × Option String))
    (acc : List RelationRecord) : List RelationRecord → List RelationRecord
  | [] => acc
  | r :: rest =>
    if relKey r ∈ seen then mergeRowsGo seen acc rest
    else mergeRowsGo (relKey r :: seen) (acc ++ [r]) rest

/-- surreal.rs `merge_relation_rows`: append to the outgoing rows those
incoming rows whose dedup key has not been seen. -/
def merge_relation_rows (left right : List RelationRecord) :
    List RelationRecord :=
  mergeRowsGo (left.map relKey) left right

/-- surreal.rs `AdjacencyRaw`: merged adjacency lists per relation kind. -/
structure AdjacencyRaw where
  member_of : List RelationRecord := []
  contains : List RelationRecord := []
  returns : List RelationRecord := []
  param_types : List RelationRecord := []
  see_also : List RelationRecord := []
  inherits : List RelationRecord := []
  references : List RelationRecord := []
  observed_in : List RelationRecord := []

/-- The fifteen row lists returned by the single multi-statement query of
surreal.rs `fetch_symbol_adjacency`: per bidirectional relation kind one
outgoing and one incoming list, plus outgoing-only `observed_in`. -/
structure AdjacencyRows where
  member_of_out : List RelationRecord := []
  member_of_in : List RelationRecord := []
  contains_out : List RelationRecord := []
  contains_in : List RelationRecord := []
  returns_out : List RelationRecord := []
  returns_in : List RelationRecord := []
  param_types_out : List RelationRecord := []
  param_types_in : List RelationRecord := []
  see_also_out : List RelationRecord := []
  see_also_in : List RelationRecord := []
  inherits_out : List RelationRecord := []
  inherits_in : List RelationRecord := []
  references_out : List RelationRecord := []
  references_in : List RelationRecord := []
  observed_in_out : List RelationRecord := []

/-- The assembly step of surreal.rs `fetch_symbol_adjacency`: merge each
bidirectional pair of row lists with `merge_relation_rows`, and take
`observed_in` from the outgoing direction only. -/
def fetch_symbol_adjacency (rows : AdjacencyRows) : AdjacencyRaw :=
  { member_of := merge_relation_rows rows.member_of_out rows.member_of_in
    contains := merge_relation_rows rows.contains_out rows.contains_in
    returns := merge_relation_rows rows.returns_out rows.returns_in
    param_types :=
      merge_relation_rows rows.param_types_out rows.param_types_in
    see_also := merge_relation_rows rows.see_also_out rows.see_also_in
    inherits := merge_relation_rows rows.inherits_out rows.inherits_in
    references := merge_relation_rows rows.references_out rows.references_in
    observed_in := rows.observed_in_out }

/-- Split a character list at the first occurrence of `c`: the part before
it, and (when `c` occurs) the part after it. Models `str::splitn(2, c)`
taking the two iterator elements, and `str::find` plus slicing. -/
def splitFirstChar (c : Char) : List Char → List Char × Option (List Char)
  | [] => ([], none)
  | x :: xs =>
    if x = c then ([], some xs)
    else
      let (before, after) := splitFirstChar c xs
      (x :: before, after)

/-- csharp_xml.rs `DocIdParts`. -/
structure DocIdParts where
  kind : Option String := none
  name : Option String := none
  qualified_name : Option String := none
  display_name : Option String := none
  signature : Option String := none

/-- csharp_xml.rs `extract_simple_name`: the segment after the last `.`,
`+`, or `#` (`rsplit` and take the first element, which always exists). -/
def extract_simple_name (value : String) : Option String :=
  some (String.mk
    ((value.toList.reverse.takeWhile
        (fun ch => !(ch = '.' || ch = '+' || ch = '#'))).reverse))

/-- csharp_xml.rs `parse_doc_id`: split the doc id on the first `:` into a
single-letter prefix and remainder; map the prefix to a kind; split the
remainder on the first `(` to recover the qualified name, keeping the whole
remainder as signature. -/
def parse_doc_id (doc_id : String) : DocIdParts :=
  let (preChars, restChars) := splitFirstChar ':' doc_id.toList
  let pre := String.mk preChars
  let rest := String.mk (restChars.getD [])
  let kind :=
    if pre = "T" then some "type"
    else if pre = "M" then some "method"
    else if pre = "P" then some "property"
    else if pre = "F" then some "field"
    else if pre = "E" then some "event"
    else if pre = "N" then some "namespace"
    else none
  let (qualified_name, signature) :=
    if rest = "" then (none, none)
    else
      match (splitFirstChar '(' rest.toList).2 with
      | some _ =>
        (some (String.mk (splitFirstChar '(' rest.toList).1), some rest)
      | none => (some rest, some rest)
  let name := qualified_name.bind extract_simple_name
  { kind := kind
    name := name
    qualified_name := qualified_name
    display_name := name
    signature := signature }

/-- data.rs `ADVANCED_SEARCH_MIN_FILTERS`. -/
def ADVANCED_SEARCH_MIN_FILTERS : Nat := 1

/-- data.rs `normalize_optional`: trim, mapping empty results to `None`. -/
def normalize_optional (value : Option String) : Option String :=
  value.bind fun inner =>
    let trimmed := strTrim inner
    if trimmed = "" then none else some trimmed

/-- data.rs `SearchSymbolsAdvancedRequest`. -/
structure SearchSymbolsAdvancedRequest where
  name : Option String := none
  qualified_name : Option String := none
  symbol_key : Option String := none
  signature : Option String := none
deriving Repr, DecidableEq

/-- data.rs `SearchSymbolsAdvancedRequest::normalized`. -/
def SearchSymbolsAdvancedRequest.normalized
    (self : SearchSymbolsAdvancedRequest) : SearchSymbolsAdvancedRequest :=
  { name := normalize_optional self.name
    qualified_name := normalize_optional self.qualified_name
    symbol_key := normalize_optional self.symbol_key
    signature := normalize_optional self.signature }

/-- data.rs `SearchSymbolsAdvancedRequest::active_filter_count`. -/
def SearchSymbolsAdvancedRequest.active_filter_count
    (self : SearchSymbolsAdvancedRequest) : Nat :=
  ([self.name, self.qualified_name, self.symbol_key, self.signature].filter
    Option.isSome).length

/-- surreal.rs `limit_to_i64`: a `usize` limit must fit in `i64`. -/
def limit_to_i64 (limit : Nat) : Except StoreError Nat :=
  if limit < 2 ^ 63 then .ok limit
  else .error (.invalidInput "limit exceeds supported range")

/-- The WHERE clauses built by surreal.rs
`SurrealDocStore::search_symbols_advanced`, as row predicates: always
`project_id = $project_id`; `symbol_key = $symbol_key` when given; for
`name`, `qualified_name` and `signature`, non-NONE plus case-insensitive
`string::contains` when given. -/
def searchAdvancedClauses (project_id : String)
    (name qualified_name symbol_key signature : Option String) :
    List (Symbol → Bool) :=
  let keyClause : List (Symbol → Bool) :=
    match symbol_key with
    | some v => [fun s => s.symbol_key == v]
    | none => []
  let nameClause : List (Symbol → Bool) :=
    match name with
    | some v =>
      [fun s =>
        (s.name.map (fun n => strContains (strLower n) (strLower v))).getD
          false]
    | none => []
  let qualifiedClause : List (Symbol → Bool) :=
    match qualified_name with
    | some v =>
      [fun s =>
        (s.qualified_name.map (fun n =>
          strContains (strLower n) (strLower v))).getD false]
    | none => []
  let signatureClause : List (Symbol → Bool) :=
    match signature with
    | some v =>
      [fun s =>
        (s.signature.map (fun n =>
          strContains (strLower n) (strLower v))).getD false]
    | none => []
  [fun s => s.project_id == project_id]
    ++ keyClause ++ nameClause ++ qualifiedClause ++ signatureClause

/-- surreal.rs `SurrealDocStore::search_symbols_advanced`: the generated
`SELECT ... WHERE <clauses joined by AND> LIMIT $limit` evaluated over the
symbol table. -/
def search_symbols_advanced_store (tbl : Table Symbol) (project_id : String)
    (name qualified_name symbol_key signature : Option String)
    (limit : Nat) : Except StoreError (List Symbol) :=
  match limit_to_i64 limit with
  | .error e => .error e
  | .ok limit =>
    let clauses :=
      searchAdvancedClauses project_id name qualified_name symbol_key signature
    .ok (((tbl.map Prod.snd).filter (fun s => clauses.all (fun c => c s))).take
      limit)

/-- data.rs `SearchSymbolsAdvancedResult`. -/
structure SearchSymbolsAdvancedResult where
  symbols : List Symbol
  total_returned : Nat
  applied_filters : SearchSymbolsAdvancedRequest

/-- data.rs `DocxControlPlane::search_symbols_advanced`, abstracted over
the store's search operation: normalize filters, reject an empty filter
set before touching the store, then delegate. -/
def search_symbols_advanced_ctl
    (storeSearch : String → Option String → Option String → Option String →
      Option String → Nat → Except StoreError (List Symbol))
    (project_id : String) (request : SearchSymbolsAdvancedRequest)
    (limit : Nat) : Except ControlError SearchSymbolsAdvancedResult :=
  let normalized := request.normalized
  if normalized.active_filter_count < ADVANCED_SEARCH_MIN_FILTERS then
    .error (.store (.invalidInput "at least one search filter is required"))
  else
    match storeSearch project_id normalized.name normalized.qualified_name
        normalized.symbol_key normalized.signature limit with
    | .error e => .error (.store e)
    | .ok symbols =>
      .ok { symbols := symbols
            total_returned := symbols.length
            applied_filters := normalized }

/-- surreal.rs `make_scoped_ingest_id`: prepend `project_id::` unless the
id already starts with it. -/
def make_scoped_ingest_id (project_id ingest_id : String) : String :=
  let scopePre := project_id ++ "::"
  if strStartsWith ingest_id scopePre then ingest_id
  else project_id ++ "::" ++ ingest_id

/-- surreal.rs `merge_ingest_extra`: record the caller-provided ingest id
under `requested_ingest_id` in the extra object (wrapping a non-object
under `value`). -/
def merge_ingest_extra (existing : Option Json)
    (requested_ingest_id : String) : Json :=
  let object :=
    match existing with
    | some (.obj map) => map
    | some value => [("value", value)]
    | none => []
  .obj (jsonObjInsert object "requested_ingest_id" (.str requested_ingest_id))

/-- surreal.rs `SurrealDocStore::create_ingest`: scope a caller-provided id
to the project, preserving the original under `extra.requested_ingest_id`
whenever the stored id differs; UPSERT under the scoped id. A missing id is
replaced by a fresh UUID, supplied here as `freshId`. -/
def create_ingest (t : Table Ingest) (ingest : Ingest) (freshId : String) :
    Table Ingest × Ingest :=
  let provided_id := ingest.id
  let id :=
    match provided_id with
    | none => freshId
    | some value => make_scoped_ingest_id ingest.project_id value
  let ingest :=
    match provided_id with
    | some provided =>
      if provided ≠ id then
        { ingest with extra := some (merge_ingest_extra ingest.extra provided) }
      else ingest
    | none => ingest
  let ingest := { ingest with id := some id }
  (tableUpsert t id ingest, ingest)

/-- The row predicate of the fallback query in surreal.rs
`SurrealDocStore::get_ingest`: `extra.requested_ingest_id = $requested_id`. -/
def requestedIdMatches (ingest_id : String) (row : Ingest) : Bool :=
  match row.extra with
  | some extra =>
    match extra.get "requested_ingest_id" with
    | some (.str v) => v == ingest_id
    | _ => false
  | none => false

/-- surreal.rs `SurrealDocStore::get_ingest`: direct record lookup first;
for ids without `::`, fall back to a scan on `extra.requested_ingest_id`,
failing as ambiguous when more than one row matches. -/
def get_ingest (t : Table Ingest) (ingest_id : String) :
    Except StoreError (Option Ingest) :=
  match List.lookup ingest_id t with
  | some row => .ok (some row)
  | none =>
    if strContains ingest_id "::" then .ok none
    else
      match (t.map Prod.snd).filter (requestedIdMatches ingest_id) with
      | [] => .ok none
      | [single] => .ok (some single)
      | _ :: _ :: _ =>
        .error (.invalidInput ("ingest_id '" ++ ingest_id ++
          "' is ambiguous; use project-scoped ingest id"))

/-- metadata.rs `ProjectUpsertRequest`. -/
structure ProjectUpsertRequest where
  project_id : String
  name : Option String := none
  language : Option String := none
  root_path : Option String := none
  description : Option String := none
  aliases : List String := []

/-- Loop body of metadata.rs `merge_aliases`, with the `HashSet` of seen
lowercased aliases as an explicit accumulator. -/
def mergeAliasesGo (seen target : List String) :
    List String → List String
  | [] => target
  | a :: rest =>
    let trimmed := strTrim a
    if trimmed = "" then mergeAliasesGo seen target rest
    else
      let key := strLower trimmed
      if key ∈ seen then mergeAliasesGo seen target rest
      else mergeAliasesGo (key :: seen) (target ++ [trimmed]) rest

/-- metadata.rs `merge_aliases`: append incoming aliases whose trimmed,
lowercased form is new, seeding the seen set from the existing aliases. -/
def merge_aliases (target incoming : List String) : List String :=
  let seen :=
    (target.map (fun a => strLower (strTrim a))).filter (fun v => v ≠ "")
  mergeAliasesGo seen target incoming

/-- metadata.rs `push_search_value`: push the lowercased trimmed value when
non-empty and unseen. State is `(values, ordered)`. -/
def push_search_value (st : List String × List String) (input : String) :
    List String × List String :=
  let trimmed := strTrim input
  if trimmed = "" then st
  else
    let lowered := strLower trimmed
    if lowered ∈ st.1 then st else (lowered :: st.1, st.2 ++ [lowered])

/-- metadata.rs `build_project_search_text`: `project_id`, name and aliases
lowercased, deduped, joined by `|`. -/
def build_project_search_text (project : Project) : Option String :=
  let st := push_search_value ([], []) project.project_id
  let st :=
    match project.name with
    | some n => push_search_value st n
    | none => st
  let st := project.aliases.foldl push_search_value st
  if st.2 = [] then none else some (String.intercalate "|" st.2)

/-- surreal.rs `SurrealDocStore::upsert_project`: validate non-empty
`project_id`, default the record id to it, and UPSERT. -/
def upsert_project_store (t : Table Project) (project : Project) :
    Except StoreError (Table Project × Project) :=
  match ensure_non_empty project.project_id "project_id" with
  | .error e => .error e
  | .ok _ =>
    let id := project.id.getD project.project_id
    let project := { project with id := some id }
    .ok (tableUpsert t id project, project)

/-- surreal.rs `SurrealDocStore::get_project`: record lookup by id. -/
def get_project_store (t : Table Project) (project_id : String) :
    Option Project :=
  List.lookup project_id t

/-- metadata.rs `DocxControlPlane::upsert_project`: load or default the
project, apply provided fields, merge aliases, default the name to the
first merged alias when absent, recompute `search_text`, and store. -/
def upsert_project_ctl (t : Table Project) (request : ProjectUpsertRequest) :
    Except ControlError (Table Project × Project) :=
  if strTrim request.project_id = "" then
    .error (.store (.invalidInput "project_id is required"))
  else
    let project :=
      (get_project_store t request.project_id).getD
        { project_id := request.project_id }
    let project :=
      match request.name with
      | some name => { project with name := some name }
      | none => project
    let project :=
      match request.language with
      | some language => { project with language := some language }
      | none => project
    let project :=
      match request.root_path with
      | some root_path => { project with root_path := some root_path }
      | none => project
    let project :=
      match request.description with
      | some description => { project with description := some description }
      | none => project
    let project :=
      { project with aliases := merge_aliases project.aliases request.aliases }
    let project :=
      match project.name, project.aliases.head? with
      | none, some first_alias => { project with name := some first_alias }
      | _, _ => project
    let project :=
      { project with search_text := build_project_search_text project }
    match upsert_project_store t project with
    | .error e => .error (.store e)
    | .ok result => .ok result

/-- Strips a literal leading `pre` from `s`, character-level model of
`str::strip_prefix`. -/
def strStripPre (s pre : String) : Option String :=
  if strStartsWith s pre then
    some (String.mk (s.toList.drop pre.toList.length))
  else none

/-- data.rs `record_id_to_symbol_key`. -/
def record_id_to_symbol_key (record_id : String) : Option String :=
  strStripPre record_id "symbol:"

/-- data.rs `record_id_to_doc_source_id`. -/
def record_id_to_doc_source_id (record_id : String) : Option String :=
  strStripPre record_id "doc_source:"

/-- Boolean string order used to model Rust's `Ord`-based sorts. -/
def strLeB (a b : String) : Bool :=
  decide (a < b) || a == b

/-- data.rs `DocSourceHydrationSummary`. -/
structure DocSourceHydrationSummary where
  from_doc_blocks : Nat := 0
  from_observed_in : Nat := 0
  deduped_total : Nat := 0
deriving Repr, DecidableEq

/-- data.rs `SymbolAdjacency` with its derived `Default`. -/
structure SymbolAdjacency where
  symbol : Option Symbol := none
  doc_blocks : List DocBlock := []
  doc_sources : List DocSource := []
  hydration_summary : DocSourceHydrationSummary := {}
  member_of : List RelationRecord := []
  contains : List RelationRecord := []
  returns : List RelationRecord := []
  param_types : List RelationRecord := []
  see_also : List RelationRecord := []
  inherits : List RelationRecord := []
  references : List RelationRecord := []
  observed_in : List RelationRecord := []
  related_symbols : List Symbol := []

/-- The dedup key of data.rs `merge_doc_sources`: the source id, or a
`missing:`-tagged fallback. -/
def docSourceKey (source : DocSource) : String :=
  source.id.getD ("missing:" ++ source.project_id)

/-- The `retain` pass of data.rs `merge_doc_sources`: keep the first
occurrence per dedup key. -/
def dedupDocSourcesGo (seen : List String) : List DocSource → List DocSource
  | [] => []
  | s :: rest =>
    if docSourceKey s ∈ seen then dedupDocSourcesGo seen rest
    else s :: dedupDocSourcesGo (docSourceKey s :: seen) rest

/-- data.rs `merge_doc_sources`: concatenate both hydration sources, dedup
by id, stably sort by id, and record the deduped total. -/
def merge_doc_sources (from_doc_blocks from_observed_in : List DocSource)
    (summary : DocSourceHydrationSummary) :
    List DocSource × DocSourceHydrationSummary :=
  let all := from_doc_blocks ++ from_observed_in
  let all := dedupDocSourcesGo [] all
  let all := all.mergeSort (fun l r => strLeB (l.id.getD "") (r.id.getD ""))
  (all, { summary with deduped_total := all.length })

/-- First-occurrence dedup of a string list (models collecting into a
`HashSet` and iterating, taking insertion order as the iteration order;
the caller sorts and dedups afterwards, so iteration order is not
observable). -/
def dedupStringsGo (seen : List String) : List String → List String
  | [] => []
  | s :: rest =>
    if s ∈ seen then dedupStringsGo seen rest
    else s :: dedupStringsGo (s :: seen) rest

/-- First-occurrence dedup of a string list. -/
def dedupStrings (l : List String) : List String :=
  dedupStringsGo [] l

/-- The store operations consumed by data.rs
`DocxControlPlane::get_symbol_adjacency`, abstracted as functions (the
SurrealDB store is the external collaborator behind them). -/
structure DocStoreOps where
  get_symbol_by_project :
    String → String → Except StoreError (Option Symbol)
  list_doc_blocks :
    String → String → Option String → Except StoreError (List DocBlock)
  fetch_adjacency : String → String → Nat → Except StoreError AdjacencyRaw
  list_doc_sources : String → List String → Except StoreError (List DocSource)
  list_doc_sources_by_ids :
    String → List String → Except StoreError (List DocSource)

/-- data.rs `DocxControlPlane::get_symbol_adjacency`: fetch the symbol
(project-scoped), short-circuiting to the default adjacency when it is
absent; otherwise fetch doc blocks, the merged adjacency, hydrate doc
sources from doc-block ingest ids and from `observed_in` targets, and
hydrate, sort and dedup the related symbols. -/
def get_symbol_adjacency (store : DocStoreOps)
    (project_id symbol_key : String) (limit : Nat) :
    Except ControlError SymbolAdjacency :=
  let limit := max limit 1
  match store.get_symbol_by_project project_id symbol_key with
  | .error e => .error (.store e)
  | .ok none => .ok {}
  | .ok (some symbol) =>
    match store.list_doc_blocks project_id symbol_key none with
    | .error e => .error (.store e)
    | .ok doc_blocks =>
      let ingest_ids :=
        (((doc_blocks.filterMap (fun block => block.ingest_id)).mergeSort
          strLeB).destutter (fun a b : String => a ≠ b))
      let symbol_id := symbol.id.getD symbol.symbol_key
      match store.fetch_adjacency symbol_id project_id limit with
      | .error e => .error (.store e)
      | .ok adj =>
        match store.list_doc_sources project_id ingest_ids with
        | .error e => .error (.store e)
        | .ok doc_sources_from_doc_blocks =>
          let observed_doc_source_ids :=
            (((adj.observed_in.filterMap (fun edge =>
                record_id_to_doc_source_id edge.out_id)).mergeSort
              strLeB).destutter (fun a b : String => a ≠ b))
          match store.list_doc_sources_by_ids project_id
              observed_doc_source_ids with
          | .error e => .error (.store e)
          | .ok doc_sources_from_observed_in =>
            let hydration_summary : DocSourceHydrationSummary :=
              { from_doc_blocks := doc_sources_from_doc_blocks.length
                from_observed_in := doc_sources_from_observed_in.length
                deduped_total := 0 }
            let merged := merge_doc_sources doc_sources_from_doc_blocks
              doc_sources_from_observed_in hydration_summary
            let allRelations :=
              adj.member_of ++ adj.contains ++ adj.returns ++
                adj.param_types ++ adj.see_also ++ adj.inherits ++
                adj.references ++ adj.observed_in
            let related_keys := dedupStrings (allRelations.flatMap fun r =>
              (record_id_to_symbol_key r.in_id).toList ++
                (record_id_to_symbol_key r.out_id).toList)
            let related_results := related_keys.map fun key =>
              store.get_symbol_by_project project_id key
            let related_symbols := related_results.filterMap fun r =>
              match r with
              | .ok (some s) => some s
              | _ => none
            let related_symbols := related_symbols.mergeSort fun l r =>
              strLeB l.symbol_key r.symbol_key
            let related_symbols := related_symbols.destutter fun l r =>
              l.symbol_key ≠ r.symbol_key
            .ok { symbol := some symbol
                  doc_blocks := doc_blocks
                  doc_sources := merged.1
                  hydration_summary := merged.2
                  member_of := adj.member_of
                  contains := adj.contains
                  returns := adj.returns
                  param_types := adj.param_types
                  see_also := adj.see_also
                  inherits := adj.inherits
                  references := adj.references
                  observed_in := adj.observed_in
                  related_symbols := related_symbols }

/-- services.rs `RegistryError`, restricted to the variants `get_or_init`
can produce (`UnknownSolution` is never constructed there); the build
error payload is abstract. -/
inductive RegErr (E : Type) where
  | capacityReached (max : Nat) : RegErr E
  | buildFailed (e : E) : RegErr E

/-- State of the `tokio::sync::OnceCell` inside a `SolutionEntry`: empty,
currently initializing under one owner, or set. Per tokio's documented
semantics, a failed initializer leaves the cell empty and lets another
waiter run its own initializer. -/
inductive CellState (H : Type) where
  | empty : CellState H
  | building : CellState H
  | ready (h : H) : CellState H

/-- Control point of one task inside services.rs
`SolutionRegistry::get_or_init`: about to take the read guard; about to
take the write guard; about to enter `get_or_try_init`; running the
builder (carrying its eventual result); or finished. -/
inductive TaskPhase (E H : Type) where
  | readPhase : TaskPhase E H
  | writePhase : TaskPhase E H
  | initPhase : TaskPhase E H
  | running (r : Except E H) : TaskPhase E H
  | done (r : Except (RegErr E) H) : TaskPhase E H

/-- Registry configuration for one tenant under concurrent callers:
`numTasks` concurrent `get_or_init` callers, the builder (indexed by
invocation count, so distinct invocations may differ), the configured
capacity, and the number of map entries held by other tenants. -/
structure RegCfg (E H : Type) where
  numTasks : Nat
  builder : Nat → Except E H
  max_entries : Option Nat := none
  otherEntries : Nat := 0

/-- Shared registry state for the tenant: whether its map entry exists,
the entry's cell, how many times the builder has been invoked, and each
task's control point. -/
structure RegState (E H : Type) where
  entryExists : Bool
  cell : CellState H
  invocations : Nat
  tasks : Nat → TaskPhase E H

/-- One interleaving step of services.rs `SolutionRegistry::get_or_init`
under `cfg`: the read-guard lookup (hit or miss), the write-guard
double-check, capacity enforcement and placeholder insertion, and the
entry-local `get_or_try_init` (return the set value; acquire and run the
builder from an empty cell; publish a success; or drop a failure, leaving
the cell empty as tokio's `OnceCell` does). -/
inductive RegStep {E H : Type} (cfg : RegCfg E H) :
    RegState E H → RegState E H → Prop where
  | readHit (s : RegState E H) (i : Nat) (hi : i < cfg.numTasks)
      (ht : s.tasks i = .readPhase) (he : s.entryExists = true) :
      RegStep cfg s { s with tasks := Function.update s.tasks i .initPhase }
  | readMiss (s : RegState E H) (i : Nat) (hi : i < cfg.numTasks)
      (ht : s.tasks i = .readPhase) (he : s.entryExists = false) :
      RegStep cfg s { s with tasks := Function.update s.tasks i .writePhase }
  | writeHit (s : RegState E H) (i : Nat) (hi : i < cfg.numTasks)
      (ht : s.tasks i = .writePhase) (he : s.entryExists = true) :
      RegStep cfg s { s with tasks := Function.update s.tasks i .initPhase }
  | writeCapacity (s : RegState E H) (i : Nat) (hi : i < cfg.numTasks)
      (ht : s.tasks i = .writePhase) (he : s.entryExists = false)
      (m : Nat) (hm : cfg.max_entries = some m) (hc : m ≤ cfg.otherEntries) :
      RegStep cfg s
        { s with tasks := Function.update s.tasks i (.done (.error (.capacityReached m))) }
  | writeInsert (s : RegState E H) (i : Nat) (hi : i < cfg.numTasks)
      (ht : s.tasks i = .writePhase) (he : s.entryExists = false)
      (hc : ∀ m, cfg.max_entries = some m → cfg.otherEntries < m) :
      RegStep cfg s
        { s with entryExists := true,
                 tasks := Function.update s.tasks i .initPhase }
  | initReady (s : RegState E H) (i : Nat) (hi : i < cfg.numTasks)
      (ht : s.tasks i = .initPhase) (h : H) (hc : s.cell = .ready h) :
      RegStep cfg s
        { s with tasks := Function.update s.tasks i (.done (.ok h)) }
  | initAcquire (s : RegState E H) (i : Nat) (hi : i < cfg.numTasks)
      (ht : s.tasks i = .initPhase) (hc : s.cell = .empty) :
      RegStep cfg s
        { s with cell := .building,
                 invocations := s.invocations + 1,
                 tasks := Function.update s.tasks i (.running (cfg.builder s.invocations)) }
  | finishOk (s : RegState E H) (i : Nat) (hi : i < cfg.numTasks)
      (h : H) (ht : s.tasks i = .running (.ok h)) :
      RegStep cfg s
        { s with cell := .ready h,
                 tasks := Function.update s.tasks i (.done (.ok h)) }
  | finishErr (s : RegState E H) (i : Nat) (hi : i < cfg.numTasks)
      (e : E) (ht : s.tasks i = .running (.error e)) :
      RegStep cfg s
        { s with cell := .empty,
                 tasks := Function.update s.tasks i (.done (.error (.buildFailed e))) }

/-- Initial state: the tenant's entry does not exist yet and all callers
are about to enter `get_or_init`. -/
def regInit {E H : Type} (_cfg : RegCfg E H) : RegState E H :=
  { entryExists := false
    cell := .empty
    invocations := 0
    tasks := fun _ => .readPhase }

/-- Reachability under interleaved `get_or_init` steps. -/
def RegReaches {E H : Type} (cfg : RegCfg E H) :
    RegState E H → RegState E H → Prop :=
  Relation.ReflTransGen (RegStep cfg)

/-- All callers have returned. -/
def regAllDone {E H : Type} (cfg : RegCfg E H) (s : RegState E H) : Prop :=
  ∀ i, i < cfg.numTasks → ∃ r, s.tasks i = .done r

/-- Declarative characterization of one merged relation list (claim C6):
the outgoing rows come first unchanged, followed by a selection of the
incoming rows that preserves their order, carries no duplicate dedup key,
avoids every key already present among the outgoing rows, covers every
incoming key not already outgoing, and keeps only the first incoming row
of each key. -/
def mergedSpec (l r merged : List RelationRecord) : Prop :=
  ∃ d, merged = l ++ d ∧ d.Sublist r ∧ (d.map relKey).Nodup ∧
    (∀ k ∈ d.map relKey, k ∉ l.map relKey) ∧
    (∀ x ∈ r, relKey x ∉ l.map relKey → relKey x ∈ d.map relKey) ∧
    (∀ x ∈ d, List.find? (fun y => decide (relKey y = relKey x)) r = some x)

/-- A symbol stored with its id defaulted to the symbol key, as
`upsert_symbol` persists parser-produced symbols (which carry no id). -/
def withKeyId (s : Symbol) : Symbol :=
  { s with id := some s.symbol_key }

/-- Concrete ingest example: first occurrence of key `csharp|p|T:Foo`,
carrying attributes `a` (name `a`). -/
def c1SymA : Symbol :=
  { project_id := "p", symbol_key := "csharp|p|T:Foo", name := some "a" }

/-- Concrete ingest example: second occurrence of the same key, carrying
attributes `b`. -/
def c1SymB : Symbol :=
  { project_id := "p", symbol_key := "csharp|p|T:Foo", name := some "b" }

/-- Concrete ingest example: a distinct key `csharp|p|T:Bar` with
attributes `c`. -/
def c1SymC : Symbol :=
  { project_id := "p", symbol_key := "csharp|p|T:Bar", name := some "c" }

/-- Declarative row predicate for advanced symbol search (claim C5): the
project must match; `symbol_key`, when given, is an exact match; `name`,
`qualified_name` and `signature`, when given, are case-insensitive
substring matches on a present field; absent filters impose nothing; all
present filters combine with AND. -/
def advancedMatch (project_id : String) (f : SearchSymbolsAdvancedRequest)
    (s : Symbol) : Bool :=
  (s.project_id == project_id) &&
  (match f.symbol_key with
   | some v => s.symbol_key == v
   | none => true) &&
  (match f.name with
   | some v =>
     (s.name.map (fun n => strContains (strLower n) (strLower v))).getD false
   | none => true) &&
  (match f.qualified_name with
   | some v =>
     (s.qualified_name.map (fun n =>
       strContains (strLower n) (strLower v))).getD false
   | none => true) &&
  (match f.signature with
   | some v =>
     (s.signature.map (fun n =>
       strContains (strLower n) (strLower v))).getD false
   | none => true)

/-- A record-id string refers to a symbol stored in the current ingest
(claim C4): it is `symbol:{id}` for the id of one of the stored symbols. -/
def isStoredSymbolRecord (symbols : List Symbol) (r : String) : Prop :=
  ∃ s ∈ symbols, ∃ i, s.id = some i ∧ r = make_record_id TABLE_SYMBOL i

/-- The `implements` contribution of one stored symbol (claim C7): one
edge of kind `trait_impl` per trait path listed for the symbol's
qualified name in the parser-provided `trait_impls` map whose
language-specific symbol key resolves within the current ingest. -/
def implementsContrib (symbol_by_key : List (String × String))
    (project_id : String) (ingest_id : Option String)
    (trait_impls : List (String × List String)) (s : Symbol) :
    List RelationRecord :=
  match s.id, s.qualified_name.bind
      (fun qn => List.lookup qn trait_impls) with
  | some symbol_id, some trait_paths =>
    trait_paths.filterMap fun trait_path =>
      (List.lookup (make_symbol_key "rust" project_id trait_path)
          symbol_by_key).map fun trait_id =>
        { id := none, in_id := make_record_id TABLE_SYMBOL symbol_id
          out_id := make_record_id TABLE_SYMBOL trait_id
          project_id := project_id, ingest_id := ingest_id
          kind := some "trait_impl", extra := none }
  | _, _ => []

/-- Concrete stored symbol for the dangling-reference scenario. -/
def c4Foo : Symbol :=
  { id := some "csharp|p|T:Foo", project_id := "p",
    language := some "csharp", symbol_key := "csharp|p|T:Foo" }

/-- Concrete doc block whose `see_also` references the unknown target
`T:Unknown`. -/
def c4BlockDangling : DocBlock :=
  { id := some "b1", project_id := "p",
    symbol_key := some "csharp|p|T:Foo", language := some "csharp",
    see_also := [{ target := "T:Unknown" }] }

/-- Concrete doc block whose `see_also` references the stored `T:Foo`. -/
def c4BlockResolved : DocBlock :=
  { id := some "b2", project_id := "p",
    symbol_key := some "csharp|p|T:Foo", language := some "csharp",
    see_also := [{ target := "T:Foo" }] }

/-- Invariant of the registry transition system when the first builder
invocation succeeds with `h0` (claim C2): at most one invocation ever
happens; an empty cell means none happened yet; a running task carries the
successful first invocation and owns the building cell exclusively; a set
cell holds `h0` after exactly one invocation; and every finished task got
`h0` after exactly one invocation. -/
structure RegInv {E H : Type} (cfg : RegCfg E H) (h0 : H)
    (s : RegState E H) : Prop where
  inv_le : s.invocations ≤ 1
  empty_inv : s.cell = .empty → s.invocations = 0
  running_ok : ∀ i r, i < cfg.numTasks → s.tasks i = .running r →
    r = .ok h0 ∧ s.cell = .building ∧ s.invocations = 1
  ready_eq : ∀ h, s.cell = .ready h → h = h0 ∧ s.invocations = 1
  done_ok : ∀ i r, i < cfg.numTasks → s.tasks i = .done r →
    r = .ok h0 ∧ s.invocations = 1
  running_unique : ∀ i j r r', i < cfg.numTasks → j < cfg.numTasks →
    s.tasks i = .running r → s.tasks j = .running r' → i = j

/-- A registry run with two concurrent callers whose builder always
fails: the configuration used to refute the unconditional single-flight
claim. -/
def c2FailCfg : RegCfg Unit Unit :=
  { numTasks := 2
    builder := fun _ => Except.error ()
    max_entries := none
    otherEntries := 0 }

/-- Final state of the failing two-caller run: both callers finished with
the builder error, and the builder was invoked twice. -/
def c2FailFinal : RegState Unit Unit :=
  { entryExists := true
    cell := CellState.empty
    invocations := 2
    tasks :=
      Function.update
        (Function.update
          (Function.update
            (Function.update
              (Function.update
                (Function.update
                  (Function.update (fun _ => TaskPhase.readPhase)
                    0 TaskPhase.writePhase)
                  0 TaskPhase.initPhase)
                0 (TaskPhase.running (Except.error ())))
              0 (TaskPhase.done (Except.error (RegErr.buildFailed ()))))
            1 TaskPhase.initPhase)
          1 (TaskPhase.running (Except.error ())))
        1 (TaskPhase.done (Except.error (RegErr.buildFailed ()))) }

/-- A single-caller registry run whose builder succeeds with handle 7. -/
def c2OkCfg : RegCfg Unit Nat :=
  { numTasks := 1
    builder := fun _ => Except.ok 7
    max_entries := none
    otherEntries := 0 }

/-- Final state of the successful single-caller run. -/
def c2OkFinal : RegState Unit Nat :=
  { entryExists := true
    cell := CellState.ready 7
    invocations := 1
    tasks :=
      Function.update
        (Function.update
          (Function.update
            (Function.update (fun _ => TaskPhase.readPhase)
              0 TaskPhase.writePhase)
            0 TaskPhase.initPhase)
          0 (TaskPhase.running (Except.ok 7)))
        0 (TaskPhase.done (Except.ok 7)) }

/- ------------------------------------------------------------------ -/
/- Theorems.                                                           -/
/- ------------------------------------------------------------------ -/

theorem splitFirstChar_no_occurrence (c : Char) (l : List Char)
    (h : c ∉ l) : splitFirstChar c l = (l, none) := by
  induction l with
  | nil => rfl
  | cons x xs ih =>
    have hx : x ≠ c := by
      intro hxc
      exact h (hxc ▸ List.mem_cons_self x xs)
    have hxs : c ∉ xs := fun hmem => h (List.mem_cons_of_mem x hmem)
    simp [splitFirstChar, hx, ih hxs]

theorem splitFirstChar_append (c : Char) (p r : List Char) (hp : c ∉ p) :
    splitFirstChar c (p ++ c :: r) = (p, some r) := by
  induction p with
  | nil => simp [splitFirstChar]
  | cons x xs ih =>
    have hx : x ≠ c := by
      intro hxc
      exact hp (hxc ▸ List.mem_cons_self x xs)
    have hxs : c ∉ xs := fun hmem => hp (List.mem_cons_of_mem x hmem)
    simp [splitFirstChar, hx, ih hxs]

theorem splitFirstChar_fst_takeWhile (c : Char) (l : List Char) :
    (splitFirstChar c l).1 = l.takeWhile (fun x => decide (x ≠ c)) := by
  induction l with
  | nil => rfl
  | cons x xs ih =>
    by_cases hx : x = c
    · subst hx
      simp [splitFirstChar, List.takeWhile]
    · simp [splitFirstChar, hx, List.takeWhile, ih]

theorem splitFirstChar_snd_none (c : Char) (l : List Char) (h : c ∉ l) :
    (splitFirstChar c l).2 = none := by
  rw [splitFirstChar_no_occurrence c l h]

theorem string_toList_append (a b : String) :
    (a ++ b).toList = a.toList ++ b.toList := by
  simp [String.toList, String.data_append]

theorem string_mk_toList (s : String) : String.mk s.toList = s := rfl

theorem string_eq_empty_iff_toList (s : String) :
    s = "" ↔ s.toList = [] := by
  constructor
  · intro h
    subst h
    rfl
  · intro h
    cases s with
    | mk data =>
      simp [String.toList] at h
      simp [h]

theorem splitFirstChar_mem_snd_ne_none (c : Char) (l : List Char)
    (h : c ∈ l) : ¬ (splitFirstChar c l).2 = none := by
  induction l with
  | nil => cases h
  | cons x xs ih =>
    by_cases hx : x = c
    · subst hx
      simp [splitFirstChar]
    · have hxs : c ∈ xs := by
        rcases List.mem_cons.mp h with h1 | h2
        · exact absurd h1.symm hx
        · exact h2
      simpa [splitFirstChar, hx] using ih hxs

theorem string_mk_data (s : String) : String.mk s.data = s := rfl

/-- Claim C8: for every C# XML member name of the form `PREFIX:REST` (the
prefix contains no colon), `parse_doc_id` maps the prefix `T`/`M`/`P`/`F`/
`E`/`N` to kind type/method/property/field/event/namespace and any other
prefix to no kind; the qualified name is the part of `REST` before the
first `(` while the signature keeps the whole remainder; and an empty
`REST` yields neither a qualified name nor a signature. -/
theorem c8_parse_doc_id (pre rest : String) (hpre : ':' ∉ pre.toList) :
    (parse_doc_id (pre ++ ":" ++ rest)).kind =
      (if pre = "T" then some "type"
       else if pre = "M" then some "method"
       else if pre = "P" then some "property"
       else if pre = "F" then some "field"
       else if pre = "E" then some "event"
       else if pre = "N" then some "namespace"
       else none) ∧
    (parse_doc_id (pre ++ ":" ++ rest)).qualified_name =
      (if rest = "" then none
       else some (String.mk (rest.toList.takeWhile (fun c => decide (c ≠ '('))))) ∧
    (parse_doc_id (pre ++ ":" ++ rest)).signature =
      (if rest = "" then none else some rest) := by
  have hdata : (pre ++ ":" ++ rest).toList = pre.data ++ ':' :: rest.data := by
    simp [String.toList, String.data_append]
  have hsplit : splitFirstChar ':' (pre.data ++ ':' :: rest.data) =
      (pre.data, some rest.data) := by
    have h := splitFirstChar_append ':' pre.toList rest.toList hpre
    simpa [String.toList] using h
  have hfst := splitFirstChar_fst_takeWhile '(' rest.data
  by_cases hrest : rest = ""
  · subst hrest
    refine ⟨?_, ?_, ?_⟩ <;>
      simp [parse_doc_id, hdata, hsplit, string_mk_data, String.toList]
  · cases hsnd : (splitFirstChar '(' rest.data).2 with
    | some a =>
      refine ⟨?_, ?_, ?_⟩ <;>
        simp [parse_doc_id, hdata, hsplit, string_mk_data, String.toList,
          hsnd, hrest, hfst]
    | none =>
      have hnotmem : '(' ∉ rest.data := fun hmem =>
        splitFirstChar_mem_snd_ne_none '(' rest.data hmem hsnd
      have htake : rest.data.takeWhile (fun x => !decide (x = '(')) =
          rest.data := by
        rw [List.takeWhile_eq_self_iff]
        intro x hx
        simp only [Bool.not_eq_true', decide_eq_false_iff_not]
        intro hxc
        exact hnotmem (hxc ▸ hx)
      refine ⟨?_, ?_, ?_⟩ <;>
        simp [parse_doc_id, hdata, hsplit, string_mk_data, String.toList,
          hsnd, hrest, htake]


theorem c8_witness :
    (':' ∉ "M".toList) ∧
    (parse_doc_id ("M" ++ ":" ++ "Acme.Foo.Bar(System.Int32)")).kind =
      some "method" ∧
    (parse_doc_id ("M" ++ ":" ++ "Acme.Foo.Bar(System.Int32)")).qualified_name =
      some "Acme.Foo.Bar" ∧
    (parse_doc_id ("M" ++ ":" ++ "Acme.Foo.Bar(System.Int32)")).signature =
      some "Acme.Foo.Bar(System.Int32)" := by
  have h := c8_parse_doc_id "M" "Acme.Foo.Bar(System.Int32)" (by decide)
  refine ⟨by decide, ?_, ?_, ?_⟩
  · exact h.1.trans (by decide)
  · exact h.2.1.trans (by decide)
  · exact h.2.2.trans (by decide)

theorem mergeRowsGo_append (r : List RelationRecord) :
    ∀ (seen : List (String × String × Option String))
      (acc : List RelationRecord),
      mergeRowsGo seen acc r = acc ++ mergeRowsGo seen [] r := by
  induction r with
  | nil => intro seen acc; simp [mergeRowsGo]
  | cons x rest ih =>
    intro seen acc
    by_cases h : relKey x ∈ seen
    · simp only [mergeRowsGo, if_pos h]
      rw [ih seen acc]
    · simp only [mergeRowsGo, if_neg h]
      rw [ih _ (acc ++ [x]), ih _ ([] ++ [x])]
      simp [List.append_assoc]

theorem mergeRowsGo_nil_cons (seen : List (String × String × Option String))
    (x : RelationRecord) (rest : List RelationRecord) :
    mergeRowsGo seen [] (x :: rest) =
      if relKey x ∈ seen then mergeRowsGo seen [] rest
      else x :: mergeRowsGo (relKey x :: seen) [] rest := by
  by_cases h : relKey x ∈ seen
  · simp [mergeRowsGo, h]
  · simp only [mergeRowsGo, if_neg h, if_pos, h]
    rw [mergeRowsGo_append rest _ ([] ++ [x])]
    simp

theorem mergeRowsGo_sublist (r : List RelationRecord) :
    ∀ seen, (mergeRowsGo seen [] r).Sublist r := by
  induction r with
  | nil => intro seen; simp [mergeRowsGo]
  | cons x rest ih =>
    intro seen
    rw [mergeRowsGo_nil_cons]
    by_cases h : relKey x ∈ seen
    · simp only [if_pos h]
      exact (ih seen).cons x
    · simp only [if_neg h]
      exact (ih (relKey x :: seen)).cons₂ x

theorem mergeRowsGo_key_not_seen (r : List RelationRecord) :
    ∀ seen, ∀ x ∈ mergeRowsGo seen [] r, relKey x ∉ seen := by
  induction r with
  | nil => intro seen x hx; simp [mergeRowsGo] at hx
  | cons y rest ih =>
    intro seen x hx
    rw [mergeRowsGo_nil_cons] at hx
    by_cases h : relKey y ∈ seen
    · rw [if_pos h] at hx
      exact ih seen x hx
    · rw [if_neg h] at hx
      rcases List.mem_cons.mp hx with h1 | h2
      · subst h1; exact h
      · intro hmem
        exact ih (relKey y :: seen) x h2 (List.mem_cons_of_mem _ hmem)

theorem mergeRowsGo_find (r : List RelationRecord) :
    ∀ seen, ∀ x ∈ mergeRowsGo seen [] r,
      List.find? (fun y => decide (relKey y = relKey x)) r = some x := by
  induction r with
  | nil => intro seen x hx; simp [mergeRowsGo] at hx
  | cons y rest ih =>
    intro seen x hx
    rw [mergeRowsGo_nil_cons] at hx
    by_cases h : relKey y ∈ seen
    · rw [if_pos h] at hx
      have hne : ¬ relKey y = relKey x := by
        intro heq
        exact mergeRowsGo_key_not_seen rest seen x hx (heq ▸ h)
      simp [List.find?_cons, hne]
      exact ih seen x hx
    · rw [if_neg h] at hx
      rcases List.mem_cons.mp hx with h1 | h2
      · subst h1
        simp [List.find?_cons]
      · have hne : ¬ relKey y = relKey x := by
          intro heq
          exact mergeRowsGo_key_not_seen rest (relKey y :: seen) x h2
            (heq ▸ List.mem_cons_self _ _)
        simp [List.find?_cons, hne]
        exact ih (relKey y :: seen) x h2

theorem mergeRowsGo_nodup (r : List RelationRecord) :
    ∀ seen, ((mergeRowsGo seen [] r).map relKey).Nodup := by
  induction r with
  | nil => intro seen; simp [mergeRowsGo]
  | cons y rest ih =>
    intro seen
    rw [mergeRowsGo_nil_cons]
    by_cases h : relKey y ∈ seen
    · rw [if_pos h]
      exact ih seen
    · rw [if_neg h]
      simp only [List.map_cons, List.nodup_cons]
      constructor
      · intro hmem
        rcases List.mem_map.mp hmem with ⟨x, hx, hkey⟩
        exact mergeRowsGo_key_not_seen rest (relKey y :: seen) x hx
          (hkey ▸ List.mem_cons_self _ _)
      · exact ih (relKey y :: seen)

theorem mergeRowsGo_covers (r : List RelationRecord) :
    ∀ seen, ∀ x ∈ r, relKey x ∉ seen →
      relKey x ∈ (mergeRowsGo seen [] r).map relKey := by
  induction r with
  | nil => intro seen x hx; cases hx
  | cons y rest ih =>
    intro seen x hx hseen
    rw [mergeRowsGo_nil_cons]
    by_cases h : relKey y ∈ seen
    · rw [if_pos h]
      rcases List.mem_cons.mp hx with h1 | h2
      · subst h1; exact absurd h hseen
      · exact ih seen x h2 hseen
    · rw [if_neg h]
      rcases List.mem_cons.mp hx with h1 | h2
      · subst h1
        simp
      · by_cases hk : relKey x = relKey y
        · simp [hk]
        · have : relKey x ∉ relKey y :: seen := by
            intro hmem
            rcases List.mem_cons.mp hmem with h3 | h4
            · exact hk h3
            · exact hseen h4
          simp only [List.map_cons, List.mem_cons]
          exact Or.inr (ih (relKey y :: seen) x h2 this)

theorem merge_relation_rows_spec (l r : List RelationRecord) :
    mergedSpec l r (merge_relation_rows l r) := by
  refine ⟨mergeRowsGo (l.map relKey) [] r, ?_, mergeRowsGo_sublist r _,
    mergeRowsGo_nodup r _, ?_, ?_, ?_⟩
  · rw [merge_relation_rows, mergeRowsGo_append]
  · intro k hk
    rcases List.mem_map.mp hk with ⟨x, hx, hkey⟩
    exact hkey ▸ mergeRowsGo_key_not_seen r _ x hx
  · intro x hx hnew
    exact mergeRowsGo_covers r _ x hx hnew
  · intro x hx
    exact mergeRowsGo_find r _ x hx

/-- Claim C6: for each of the seven bidirectional relation kinds returned
by `fetch_symbol_adjacency` (member_of, contains, returns, param_type,
see_also, inherits, references), the merged list is the outgoing list
followed by exactly those incoming edges whose dedup key
`(in_id, out_id, kind)` has not been seen before, in first-seen order
(`mergedSpec`); `observed_in` is returned from the outgoing direction
only. -/
theorem c6_fetch_symbol_adjacency_merge (rows : AdjacencyRows) :
    mergedSpec rows.member_of_out rows.member_of_in
      (fetch_symbol_adjacency rows).member_of ∧
    mergedSpec rows.contains_out rows.contains_in
      (fetch_symbol_adjacency rows).contains ∧
    mergedSpec rows.returns_out rows.returns_in
      (fetch_symbol_adjacency rows).returns ∧
    mergedSpec rows.param_types_out rows.param_types_in
      (fetch_symbol_adjacency rows).param_types ∧
    mergedSpec rows.see_also_out rows.see_also_in
      (fetch_symbol_adjacency rows).see_also ∧
    mergedSpec rows.inherits_out rows.inherits_in
      (fetch_symbol_adjacency rows).inherits ∧
    mergedSpec rows.references_out rows.references_in
      (fetch_symbol_adjacency rows).references ∧
    (fetch_symbol_adjacency rows).observed_in = rows.observed_in_out :=
  ⟨merge_relation_rows_spec _ _, merge_relation_rows_spec _ _,
   merge_relation_rows_spec _ _, merge_relation_rows_spec _ _,
   merge_relation_rows_spec _ _, merge_relation_rows_spec _ _,
   merge_relation_rows_spec _ _, rfl⟩


theorem dedupeGo_sublist (l : List Symbol) :
    ∀ seen, (dedupeGo seen l).Sublist l := by
  induction l with
  | nil => intro seen; simp [dedupeGo]
  | cons s rest ih =>
    intro seen
    by_cases h : s.symbol_key ∈ seen
    · simp only [dedupeGo, if_pos h]
      exact (ih seen).cons s
    · simp only [dedupeGo, if_neg h]
      exact (ih (s.symbol_key :: seen)).cons₂ s

theorem dedupeGo_find_of_not_seen (l : List Symbol) :
    ∀ seen k, k ∉ seen →
      (dedupeGo seen l).find? (fun s => s.symbol_key == k) =
        l.find? (fun s => s.symbol_key == k) := by
  induction l with
  | nil => intro seen k _; rfl
  | cons s rest ih =>
    intro seen k hk
    by_cases h : s.symbol_key ∈ seen
    · have hne : (s.symbol_key == k) = false := by
        simp only [beq_eq_false_iff_ne, ne_eq]
        intro heq
        exact hk (heq ▸ h)
      simp only [dedupeGo, if_pos h, List.find?_cons, hne]
      exact ih seen k hk
    · by_cases hkey : s.symbol_key = k
      · have : (s.symbol_key == k) = true := by simp [hkey]
        simp only [dedupeGo, if_neg h, List.find?_cons, this]
      · have hne : (s.symbol_key == k) = false := by
          simp [hkey]
        have hk2 : k ∉ s.symbol_key :: seen := by
          intro hmem
          rcases List.mem_cons.mp hmem with h1 | h2
          · exact hkey h1.symm
          · exact hk h2
        simp only [dedupeGo, if_neg h, List.find?_cons, hne]
        exact ih (s.symbol_key :: seen) k hk2

theorem dedupeGo_mem_key (l : List Symbol) :
    ∀ seen k, k ∈ (dedupeGo seen l).map (fun s => s.symbol_key) ↔
      (k ∈ l.map (fun s => s.symbol_key) ∧ k ∉ seen) := by
  induction l with
  | nil => intro seen k; simp [dedupeGo]
  | cons s rest ih =>
    intro seen k
    by_cases h : s.symbol_key ∈ seen
    · simp only [dedupeGo, if_pos h, List.map_cons, List.mem_cons, ih]
      constructor
      · intro ⟨hm, hn⟩
        exact ⟨Or.inr hm, hn⟩
      · rintro ⟨h1 | h2, hn⟩
        · exact absurd (h1 ▸ h) hn
        · exact ⟨h2, hn⟩
    · simp only [dedupeGo, if_neg h, List.map_cons, List.mem_cons, ih]
      constructor
      · rintro (h1 | ⟨hm, hn⟩)
        · subst h1
          exact ⟨Or.inl rfl, h⟩
        · refine ⟨Or.inr hm, fun hs => hn (Or.inr hs)⟩
      · rintro ⟨h1 | h2, hn⟩
        · exact Or.inl h1
        · by_cases hks : k = s.symbol_key
          · exact Or.inl hks
          · refine Or.inr ⟨h2, ?_⟩
            rintro (h3 | h4)
            · exact hks h3
            · exact hn h4

theorem dedupeGo_nodup_keys (l : List Symbol) :
    ∀ seen, ((dedupeGo seen l).map (fun s => s.symbol_key)).Nodup := by
  induction l with
  | nil => intro seen; simp [dedupeGo]
  | cons s rest ih =>
    intro seen
    by_cases h : s.symbol_key ∈ seen
    · simp only [dedupeGo, if_pos h]
      exact ih seen
    · simp only [dedupeGo, if_neg h, List.map_cons, List.nodup_cons]
      refine ⟨?_, ih _⟩
      intro hmem
      exact ((dedupeGo_mem_key rest (s.symbol_key :: seen) s.symbol_key).mp
        hmem).2 (List.mem_cons_self _ _)

theorem dedupe_length_eq_dedup_length (syms : List Symbol) :
    (dedupe_symbols syms).length =
      ((syms.map (fun s => s.symbol_key)).dedup).length := by
  have h1 : ((dedupe_symbols syms).map (fun s => s.symbol_key)).Nodup :=
    dedupeGo_nodup_keys syms []
  have h2 : ((syms.map (fun s => s.symbol_key)).dedup).Nodup :=
    List.nodup_dedup _
  have hperm : ((dedupe_symbols syms).map (fun s => s.symbol_key)).Perm
      ((syms.map (fun s => s.symbol_key)).dedup) := by
    rw [List.perm_ext_iff_of_nodup h1 h2]
    intro k
    rw [List.mem_dedup]
    constructor
    · intro hm
      exact ((dedupeGo_mem_key syms [] k).mp hm).1
    · intro hm
      exact (dedupeGo_mem_key syms [] k).mpr ⟨hm, List.not_mem_nil k⟩
  have := hperm.length_eq
  simpa using this

theorem lookup_map_key_pairs (l : List Symbol) (k : String) :
    List.lookup k (l.map (fun s => (s.symbol_key, withKeyId s))) =
      (l.find? (fun s => s.symbol_key == k)).map withKeyId := by
  induction l with
  | nil => rfl
  | cons s rest ih =>
    by_cases h : s.symbol_key = k
    · simp [List.lookup_cons, List.find?_cons, h]
    · have h1 : (k == s.symbol_key) = false := by
        simp [Ne.symm h]
      have h2 : (s.symbol_key == k) = false := by
        simp [h]
      simp only [List.map_cons, List.lookup_cons, List.find?_cons, h1, h2]
      exact ih

theorem store_symbols_go_run (l : List Symbol) :
    ∀ t : Table Symbol,
    (∀ s ∈ l, s.symbol_key ≠ "") → (∀ s ∈ l, s.id = none) →
    ((l.map (fun s => s.symbol_key)).Nodup) →
    (∀ s ∈ l, ∀ p ∈ t, p.1 ≠ s.symbol_key) →
    store_symbols_go t l =
      .ok (t ++ l.map (fun s => (s.symbol_key, withKeyId s)),
        l.map withKeyId) := by
  induction l with
  | nil => intro t _ _ _ _; simp [store_symbols_go]
  | cons s rest ih =>
    intro t hkey hid hnodup hdisj
    have hkey0 : s.symbol_key ≠ "" := hkey s (List.mem_cons_self _ _)
    have hid0 : s.id = none := hid s (List.mem_cons_self _ _)
    have hup : upsert_symbol t s =
        .ok (t ++ [(s.symbol_key, withKeyId s)], withKeyId s) := by
      have hany : (t.any (fun p => p.1 == s.symbol_key)) = false := by
        rw [List.any_eq_false]
        intro p hp
        simp only [beq_iff_eq]
        exact hdisj s (List.mem_cons_self _ _) p hp
      unfold upsert_symbol ensure_non_empty
      rw [if_neg hkey0]
      simp only [hid0, Option.getD_some, Option.getD_none, tableUpsert, hany]
      rfl
    have hnodup' : ((rest.map (fun s => s.symbol_key)).Nodup) := by
      simpa using hnodup.of_cons
    have hnotin : s.symbol_key ∉ rest.map (fun s => s.symbol_key) := by
      have := hnodup
      simp only [List.map_cons, List.nodup_cons] at this
      exact this.1
    have hdisj' : ∀ s2 ∈ rest, ∀ p ∈ t ++ [(s.symbol_key, withKeyId s)],
        p.1 ≠ s2.symbol_key := by
      intro s2 hs2 p hp
      rcases List.mem_append.mp hp with h1 | h2
      · exact hdisj s2 (List.mem_cons_of_mem _ hs2) p h1
      · have : p = (s.symbol_key, withKeyId s) := by simpa using h2
        subst this
        simp only [ne_eq]
        intro heq
        exact hnotin (heq ▸ List.mem_map_of_mem (fun s => s.symbol_key) hs2)
    have hrest := ih (t ++ [(s.symbol_key, withKeyId s)])
      (fun s2 hs2 => hkey s2 (List.mem_cons_of_mem _ hs2))
      (fun s2 hs2 => hid s2 (List.mem_cons_of_mem _ hs2))
      hnodup' hdisj'
    simp only [store_symbols_go, hup, hrest, List.map_cons]
    rw [List.append_assoc]
    rfl

/-- Claim C1: symbols of one ingest are deduplicated by `symbol_key`
keeping the first occurrence and upserted in declared order: the stored
list and the resulting table have one entry per distinct `symbol_key`
(so the reported `symbol_count = stored.len()` equals the number of
distinct keys), the stored sequence is exactly the first-occurrence
subsequence, and the row stored under any key carries the attributes of
its first occurrence. -/
theorem c1_store_symbols (syms : List Symbol)
    (hkey : ∀ s ∈ syms, s.symbol_key ≠ "")
    (hid : ∀ s ∈ syms, s.id = none) :
    ∃ tbl stored,
      store_symbols [] syms = .ok (tbl, stored) ∧
      stored.length = ((syms.map (fun s => s.symbol_key)).dedup).length ∧
      tbl.length = ((syms.map (fun s => s.symbol_key)).dedup).length ∧
      stored = (dedupe_symbols syms).map withKeyId ∧
      (∀ k, List.lookup k tbl =
        (syms.find? (fun s => s.symbol_key == k)).map withKeyId) := by
  have hsub := dedupeGo_sublist syms []
  have hkeyd : ∀ s ∈ dedupe_symbols syms, s.symbol_key ≠ "" :=
    fun s hs => hkey s (hsub.mem hs)
  have hidd : ∀ s ∈ dedupe_symbols syms, s.id = none :=
    fun s hs => hid s (hsub.mem hs)
  have hnodup := dedupeGo_nodup_keys syms []
  have hdisj : ∀ s ∈ dedupe_symbols syms, ∀ p ∈ ([] : Table Symbol),
      p.1 ≠ s.symbol_key := by
    intro s _ p hp
    cases hp
  have hrun := store_symbols_go_run (dedupe_symbols syms) [] hkeyd hidd
    hnodup hdisj
  refine ⟨(dedupe_symbols syms).map (fun s => (s.symbol_key, withKeyId s)),
    (dedupe_symbols syms).map withKeyId, ?_, ?_, ?_, rfl, ?_⟩
  · rw [store_symbols]
    simpa using hrun
  · rw [List.length_map]
    exact dedupe_length_eq_dedup_length syms
  · rw [List.length_map]
    exact dedupe_length_eq_dedup_length syms
  · intro k
    rw [lookup_map_key_pairs]
    congr 1
    exact dedupeGo_find_of_not_seen syms [] k (List.not_mem_nil k)

theorem c1_witness :
    (∀ s ∈ [c1SymA, c1SymB, c1SymC], s.symbol_key ≠ "") ∧
    (∀ s ∈ [c1SymA, c1SymB, c1SymC], s.id = none) ∧
    ((([c1SymA, c1SymB, c1SymC].map
        (fun s => s.symbol_key)).dedup).length = 2) ∧
    (∃ tbl stored,
      store_symbols [] [c1SymA, c1SymB, c1SymC] = .ok (tbl, stored) ∧
      stored.length =
        ((([c1SymA, c1SymB, c1SymC]).map
          (fun s => s.symbol_key)).dedup).length ∧
      tbl.length =
        ((([c1SymA, c1SymB, c1SymC]).map
          (fun s => s.symbol_key)).dedup).length ∧
      stored = (dedupe_symbols [c1SymA, c1SymB, c1SymC]).map withKeyId ∧
      (∀ k, List.lookup k tbl =
        (([c1SymA, c1SymB, c1SymC]).find?
          (fun s => s.symbol_key == k)).map withKeyId)) := by
  refine ⟨?_, ?_, ?_, ?_⟩
  · intro s hs
    simp only [List.mem_cons, List.not_mem_nil, or_false] at hs
    rcases hs with h | h | h <;> subst h <;> simp [c1SymA, c1SymB, c1SymC]
  · intro s hs
    simp only [List.mem_cons, List.not_mem_nil, or_false] at hs
    rcases hs with h | h | h <;> subst h <;> simp [c1SymA, c1SymB, c1SymC]
  · simp [c1SymA, c1SymB, c1SymC]
  · apply c1_store_symbols
    · intro s hs
      simp only [List.mem_cons, List.not_mem_nil, or_false] at hs
      rcases hs with h | h | h <;> subst h <;> simp [c1SymA, c1SymB, c1SymC]
    · intro s hs
      simp only [List.mem_cons, List.not_mem_nil, or_false] at hs
      rcases hs with h | h | h <;> subst h <;> simp [c1SymA, c1SymB, c1SymC]


theorem active_filter_count_eq_zero_iff (f : SearchSymbolsAdvancedRequest) :
    f.active_filter_count = 0 ↔ f = ({} : SearchSymbolsAdvancedRequest) := by
  rcases f with ⟨n, q, k, g⟩
  cases n <;> cases q <;> cases k <;> cases g <;>
    simp [SearchSymbolsAdvancedRequest.active_filter_count]

theorem searchAdvancedClauses_all (project_id : String)
    (f : SearchSymbolsAdvancedRequest) (s : Symbol) :
    ((searchAdvancedClauses project_id f.name f.qualified_name f.symbol_key
        f.signature).all (fun c => c s)) = advancedMatch project_id f s := by
  rcases f with ⟨n, q, k, g⟩
  cases n <;> cases q <;> cases k <;> cases g <;>
    simp [searchAdvancedClauses, advancedMatch, Bool.and_assoc]

/-- Claim C5: when all four filters of `search_symbols_advanced` are
absent or trim to the empty string, the control plane returns
`InvalidInput` ("at least one search filter is required") without
consulting the store (the result is the same for every store search
function); with at least one filter present, the result is the symbol
table filtered by `advancedMatch` — exact `symbol_key`, case-insensitive
substring on the other filters, all combined with AND — truncated to the
limit. -/
theorem c5_search_symbols_advanced (request : SearchSymbolsAdvancedRequest)
    (project_id : String) (limit : Nat) :
    (request.normalized = ({} : SearchSymbolsAdvancedRequest) →
      ∀ storeSearch,
        search_symbols_advanced_ctl storeSearch project_id request limit =
          .error (.store (.invalidInput
            "at least one search filter is required"))) ∧
    (request.normalized ≠ ({} : SearchSymbolsAdvancedRequest) →
      ∀ tbl : Table Symbol, limit < 2 ^ 63 →
        search_symbols_advanced_ctl (search_symbols_advanced_store tbl)
            project_id request limit =
          .ok { symbols := ((tbl.map Prod.snd).filter
                  (advancedMatch project_id request.normalized)).take limit
                total_returned := (((tbl.map Prod.snd).filter
                  (advancedMatch project_id request.normalized)).take
                    limit).length
                applied_filters := request.normalized }) := by
  constructor
  · intro h storeSearch
    have hcount : request.normalized.active_filter_count = 0 :=
      (active_filter_count_eq_zero_iff _).mpr h
    simp [search_symbols_advanced_ctl, hcount, ADVANCED_SEARCH_MIN_FILTERS]
  · intro h tbl hlimit
    have hcount : ¬ request.normalized.active_filter_count <
        ADVANCED_SEARCH_MIN_FILTERS := by
      simp only [ADVANCED_SEARCH_MIN_FILTERS, Nat.lt_one_iff]
      intro hzero
      exact h ((active_filter_count_eq_zero_iff _).mp hzero)
    have hstore : search_symbols_advanced_store tbl project_id
        request.normalized.name request.normalized.qualified_name
        request.normalized.symbol_key request.normalized.signature limit =
        .ok (((tbl.map Prod.snd).filter
          (advancedMatch project_id request.normalized)).take limit) := by
      have hfun : (fun s => ((searchAdvancedClauses project_id
            request.normalized.name request.normalized.qualified_name
            request.normalized.symbol_key request.normalized.signature).all
              (fun c => c s))) =
          advancedMatch project_id request.normalized := by
        funext s
        exact searchAdvancedClauses_all project_id request.normalized s
      simp only [search_symbols_advanced_store, limit_to_i64, if_pos hlimit]
      rw [hfun]
    simp only [search_symbols_advanced_ctl, if_neg hcount, hstore]

theorem c5_witness :
    (({ name := some "  ", signature := some "" } :
        SearchSymbolsAdvancedRequest).normalized =
      ({} : SearchSymbolsAdvancedRequest)) ∧
    (search_symbols_advanced_ctl (fun _ _ _ _ _ _ => .ok [])
        "p" { name := some "  ", signature := some "" } 10 =
      .error (.store (.invalidInput
        "at least one search filter is required"))) ∧
    (({ name := some " Foo " } : SearchSymbolsAdvancedRequest).normalized ≠
      ({} : SearchSymbolsAdvancedRequest)) ∧
    ((10 : Nat) < 2 ^ 63) ∧
    (search_symbols_advanced_ctl
        (search_symbols_advanced_store
          [("csharp|p|T:Acme.Foo", withKeyId
            { project_id := "p", symbol_key := "csharp|p|T:Acme.Foo",
              name := some "foo" })])
        "p" { name := some " Foo " } 10 =
      .ok { symbols := [withKeyId
              { project_id := "p", symbol_key := "csharp|p|T:Acme.Foo",
                name := some "foo" }]
            total_returned := 1
            applied_filters := { name := some "Foo" } }) := by
  have hempty : ({ name := some "  ", signature := some "" } :
      SearchSymbolsAdvancedRequest).normalized =
      ({} : SearchSymbolsAdvancedRequest) := by decide
  have hsome : ({ name := some " Foo " } :
      SearchSymbolsAdvancedRequest).normalized ≠
      ({} : SearchSymbolsAdvancedRequest) := by decide
  refine ⟨hempty, ?_, hsome, by decide, ?_⟩
  · exact (c5_search_symbols_advanced _ "p" 10).1 hempty _
  · have h := (c5_search_symbols_advanced
      ({ name := some " Foo " } : SearchSymbolsAdvancedRequest) "p" 10).2
      hsome
      [("csharp|p|T:Acme.Foo", withKeyId
        { project_id := "p", symbol_key := "csharp|p|T:Acme.Foo",
          name := some "foo" })]
      (by decide)
    rw [h]
    rfl


theorem strTrim_empty : strTrim "" = "" := rfl

theorem ne_empty_of_strTrim_ne_empty {s : String} (h : strTrim s ≠ "") :
    s ≠ "" := by
  intro heq
  subst heq
  exact h strTrim_empty

/-- Claim C10: after `upsert_project`, when no name was stored previously
and none is provided in the request, but the merged alias list is
non-empty, the stored project's name is the first alias of the merged
list. -/
theorem c10_upsert_project_name (t : Table Project)
    (request : ProjectUpsertRequest)
    (hpid : strTrim request.project_id ≠ "")
    (hreqname : request.name = none)
    (hstored_name : ∀ p ∈ get_project_store t request.project_id,
      p.name = none)
    (hstored_pid : ∀ p ∈ get_project_store t request.project_id,
      p.project_id = request.project_id)
    (hmerged : merge_aliases
      ((get_project_store t request.project_id).getD
        { project_id := request.project_id }).aliases request.aliases ≠ []) :
    ∃ t' stored,
      upsert_project_ctl t request = .ok (t', stored) ∧
      stored.name = (merge_aliases
        ((get_project_store t request.project_id).getD
          { project_id := request.project_id }).aliases
        request.aliases).head? := by
  obtain ⟨first, restAliases, hcons⟩ := List.exists_cons_of_ne_nil hmerged
  rcases request with ⟨pid, rname, rlang, rroot, rdesc, raliases⟩
  simp only at hreqname
  subst hreqname
  have hpidne : pid ≠ "" := ne_empty_of_strTrim_ne_empty hpid
  cases hget : get_project_store t pid with
  | none =>
    simp only [hget, Option.getD] at hcons ⊢
    cases rlang <;> cases rroot <;> cases rdesc <;>
      simp only [upsert_project_ctl, if_neg hpid, hget, Option.getD, hcons,
        List.head?, upsert_project_store, ensure_non_empty, if_neg hpidne] <;>
      exact ⟨_, _, rfl, rfl⟩
  | some p =>
    have hpname : p.name = none := hstored_name p (by simp [hget])
    have hppid : p.project_id = pid := hstored_pid p (by simp [hget])
    have hppidne : p.project_id ≠ "" := by
      rw [hppid]
      exact hpidne
    simp only [hget, Option.getD] at hcons ⊢
    cases rlang <;> cases rroot <;> cases rdesc <;>
      simp only [upsert_project_ctl, if_neg hpid, hget, Option.getD, hcons,
        hpname, List.head?, upsert_project_store, ensure_non_empty,
        if_neg hppidne] <;>
      exact ⟨_, _, rfl, rfl⟩

theorem c10_witness :
    (strTrim "p" ≠ "") ∧
    (({ project_id := "p", language := some "rust",
        aliases := ["my_crate"] } : ProjectUpsertRequest).name = none) ∧
    (merge_aliases
      ((get_project_store [] "p").getD { project_id := "p" }).aliases
      ["my_crate"] ≠ []) ∧
    ∃ t' stored,
      upsert_project_ctl []
        { project_id := "p", language := some "rust",
          aliases := ["my_crate"] } = .ok (t', stored) ∧
      stored.name = (merge_aliases
        ((get_project_store [] "p").getD { project_id := "p" }).aliases
        ["my_crate"]).head? := by
  refine ⟨by decide, rfl, by decide, ?_⟩
  exact c10_upsert_project_name []
    { project_id := "p", language := some "rust", aliases := ["my_crate"] }
    (by decide) rfl (by intro p hp; cases hp) (by intro p hp; cases hp)
    (by decide)


theorem find?_map_replace {α : Type} (l : List (String × α)) (k : String)
    (v : α) (h : (l.any fun p => p.1 == k) = true) :
    ((l.map (fun p => if p.1 == k then (k, v) else p)).find?
      (fun p => p.1 == k)) = some (k, v) := by
  induction l with
  | nil => simp at h
  | cons a rest ih =>
    rw [List.map_cons, List.find?_cons]
    by_cases ha : a.1 = k
    · rw [if_pos (by simp [ha] : (a.1 == k) = true)]
      simp
    · rw [if_neg (by simp [ha] : ¬ (a.1 == k) = true)]
      have hbeq : (a.1 == k) = false := by simp [ha]
      rw [hbeq]
      have hrest : (rest.any fun p => p.1 == k) = true := by
        rcases List.any_eq_true.mp h with ⟨x, hx, hxk⟩
        rcases List.mem_cons.mp hx with h1 | h2
        · subst h1
          rw [hbeq] at hxk
          cases hxk
        · exact List.any_eq_true.mpr ⟨x, h2, hxk⟩
      exact ih hrest

theorem find?_append_last {α : Type} (l : List (String × α)) (k : String)
    (v : α) (h : (l.any fun p => p.1 == k) = false) :
    ((l ++ [(k, v)]).find? (fun p => p.1 == k)) = some (k, v) := by
  induction l with
  | nil => simp [List.find?_cons]
  | cons a rest ih =>
    have hbeq : (a.1 == k) = false := by
      cases hb : (a.1 == k) with
      | false => rfl
      | true =>
        have : (a :: rest).any (fun p => p.1 == k) = true :=
          List.any_eq_true.mpr ⟨a, List.mem_cons_self _ _, hb⟩
        rw [this] at h
        cases h
    have hrest : (rest.any fun p => p.1 == k) = false := by
      cases hb : (rest.any fun p => p.1 == k) with
      | false => rfl
      | true =>
        rcases List.any_eq_true.mp hb with ⟨x, hx, hxk⟩
        have : (a :: rest).any (fun p => p.1 == k) = true :=
          List.any_eq_true.mpr ⟨x, List.mem_cons_of_mem _ hx, hxk⟩
        rw [this] at h
        cases h
    rw [List.cons_append, List.find?_cons, hbeq]
    exact ih hrest

theorem jsonObjInsert_find (fields : List (String × Json)) (k : String)
    (v : Json) :
    ((jsonObjInsert fields k v).find? (fun p => p.1 == k)) = some (k, v) := by
  cases h : (fields.any fun p => p.1 == k) with
  | true =>
    rw [jsonObjInsert, if_pos h]
    exact find?_map_replace fields k v h
  | false =>
    rw [jsonObjInsert, if_neg (by simp [h])]
    exact find?_append_last fields k v h

theorem lookup_map_replace {α : Type} (l : List (String × α)) (k : String)
    (v : α) (h : (l.any fun p => p.1 == k) = true) :
    List.lookup k (l.map (fun p => if p.1 == k then (k, v) else p)) =
      some v := by
  induction l with
  | nil => simp at h
  | cons a rest ih =>
    rw [List.map_cons]
    by_cases ha : a.1 = k
    · rw [if_pos (by simp [ha] : (a.1 == k) = true)]
      simp [List.lookup_cons]
    · rw [if_neg (by simp [ha] : ¬ (a.1 == k) = true)]
      have hbeq : (a.1 == k) = false := by simp [ha]
      have hka : (k == a.1) = false := by
        simp only [beq_eq_false_iff_ne, ne_eq]
        exact fun heq => ha heq.symm
      obtain ⟨a1, a2⟩ := a
      rw [List.lookup_cons]
      simp only at hka hbeq
      rw [hka]
      have hrest : (rest.any fun p => p.1 == k) = true := by
        rcases List.any_eq_true.mp h with ⟨x, hx, hxk⟩
        rcases List.mem_cons.mp hx with h1 | h2
        · subst h1
          rw [hbeq] at hxk
          cases hxk
        · exact List.any_eq_true.mpr ⟨x, h2, hxk⟩
      exact ih hrest

theorem lookup_append_last {α : Type} (l : List (String × α)) (k : String)
    (v : α) (h : (l.any fun p => p.1 == k) = false) :
    List.lookup k (l ++ [(k, v)]) = some v := by
  induction l with
  | nil => simp [List.lookup_cons]
  | cons a rest ih =>
    have hbeq : (a.1 == k) = false := by
      cases hb : (a.1 == k) with
      | false => rfl
      | true =>
        have : (a :: rest).any (fun p => p.1 == k) = true :=
          List.any_eq_true.mpr ⟨a, List.mem_cons_self _ _, hb⟩
        rw [this] at h
        cases h
    have hrest : (rest.any fun p => p.1 == k) = false := by
      cases hb : (rest.any fun p => p.1 == k) with
      | false => rfl
      | true =>
        rcases List.any_eq_true.mp hb with ⟨x, hx, hxk⟩
        have : (a :: rest).any (fun p => p.1 == k) = true :=
          List.any_eq_true.mpr ⟨x, List.mem_cons_of_mem _ hx, hxk⟩
        rw [this] at h
        cases h
    have hka : (k == a.1) = false := by
      simp only [beq_eq_false_iff_ne, ne_eq] at hbeq ⊢
      exact fun heq => hbeq heq.symm
    obtain ⟨a1, a2⟩ := a
    rw [List.cons_append, List.lookup_cons]
    simp only at hka
    rw [hka]
    exact ih hrest

theorem lookup_tableUpsert_self {α : Type} (t : Table α) (k : String)
    (v : α) : List.lookup k (tableUpsert t k v) = some v := by
  cases h : (t.any fun p => p.1 == k) with
  | true =>
    rw [tableUpsert, if_pos h]
    exact lookup_map_replace t k v h
  | false =>
    rw [tableUpsert, if_neg (by simp [h])]
    exact lookup_append_last t k v h

theorem c3_counterexample :
    ((create_ingest [] { project_id := "p", id := some "q::r" } "u").2.id =
      some "p::q::r") ∧
    ((create_ingest [] { project_id := "p", id := some "q::r" } "u").2.extra.bind
      (fun e => e.get "requested_ingest_id") = some (.str "q::r")) ∧
    ((((create_ingest [] { project_id := "p", id := some "q::r" } "u").1.map
        Prod.snd).filter (requestedIdMatches "q::r")).length = 1) ∧
    (get_ingest (create_ingest [] { project_id := "p", id := some "q::r" } "u").1
      "q::r" = .ok none) :=
  ⟨rfl, rfl, rfl, rfl⟩

/-- Claim C3 (amended): `create_ingest` stores a caller-provided id `C`
under the scoped id `project_id::C` (keeping an id that already starts
with `project_id::` as-is); whenever the stored id differs from `C` the
original value is preserved in `extra.requested_ingest_id`; the record is
retrievable under the scoped id; and — for a caller id that itself
contains no `::` and is not a record id — `get_ingest` by `C` alone
returns the unique row whose `extra.requested_ingest_id` is `C`, and
`InvalidInput` when two or more rows match. -/
theorem c3_ingest_scoping :
    (∀ (t : Table Ingest) (ing : Ingest) (C fresh : String),
      ing.id = some C →
      ((create_ingest t ing fresh).2.id =
        some (if strStartsWith C (ing.project_id ++ "::") then C
              else ing.project_id ++ "::" ++ C)) ∧
      ((create_ingest t ing fresh).2.id ≠ some C →
        (create_ingest t ing fresh).2.extra.bind
          (fun e => e.get "requested_ingest_id") = some (.str C)) ∧
      (get_ingest (create_ingest t ing fresh).1
        (make_scoped_ingest_id ing.project_id C) =
        .ok (some (create_ingest t ing fresh).2))) ∧
    (∀ (t : Table Ingest) (C : String),
      strContains C "::" = false → List.lookup C t = none →
      (∀ single, (t.map Prod.snd).filter (requestedIdMatches C) = [single] →
        get_ingest t C = .ok (some single)) ∧
      (2 ≤ ((t.map Prod.snd).filter (requestedIdMatches C)).length →
        get_ingest t C = .error (.invalidInput ("ingest_id '" ++ C ++
          "' is ambiguous; use project-scoped ingest id")))) := by
  constructor
  · intro t ing C fresh hid
    have hlook : ∀ stored : Ingest,
        get_ingest (tableUpsert t (make_scoped_ingest_id ing.project_id C)
          stored) (make_scoped_ingest_id ing.project_id C) =
        .ok (some stored) := by
      intro stored
      simp [get_ingest, lookup_tableUpsert_self]
    by_cases hstart : strStartsWith C (ing.project_id ++ "::") = true
    · have hscoped : make_scoped_ingest_id ing.project_id C = C := by
        simp [make_scoped_ingest_id, hstart]
      refine ⟨?_, ?_, ?_⟩
      · simp [create_ingest, hid, hscoped, hstart]
      · intro hne
        exfalso
        apply hne
        simp [create_ingest, hid, hscoped]
      · have := hlook (create_ingest t ing fresh).2
        simp only [create_ingest, hid, hscoped] at this ⊢
        simpa using this
    · have hscoped : make_scoped_ingest_id ing.project_id C =
          ing.project_id ++ "::" ++ C := by
        simp only [make_scoped_ingest_id]
        rw [if_neg hstart]
      have hne : C ≠ ing.project_id ++ "::" ++ C := by
        intro heq
        have hlen := congrArg (fun s => s.data.length) heq
        simp only [String.data_append, List.length_append] at hlen
        have h2 : ("::" : String).data.length = 2 := rfl
        rw [h2] at hlen
        omega
      refine ⟨?_, ?_, ?_⟩
      · simp only [create_ingest, hid, hscoped]
        rw [if_neg hstart]
      · intro _
        simp only [create_ingest, hid, hscoped, if_pos hne]
        cases hex : ing.extra with
        | none =>
          simp [merge_ingest_extra, hex, jsonObjInsert_find, Json.get]
        | some e =>
          cases e <;>
            simp [merge_ingest_extra, hex, jsonObjInsert_find, Json.get]
      · have := hlook (create_ingest t ing fresh).2
        simp only [create_ingest, hid, hscoped] at this ⊢
        simpa using this
  · intro t C hnc hdirect
    constructor
    · intro single hfilter
      simp [get_ingest, hdirect, hnc, hfilter]
    · intro hlen
      cases hfilter : (t.map Prod.snd).filter (requestedIdMatches C) with
      | nil => rw [hfilter] at hlen; simp at hlen
      | cons a tl =>
        cases tl with
        | nil => rw [hfilter] at hlen; simp at hlen
        | cons b tl2 =>
          simp [get_ingest, hdirect, hnc, hfilter]

theorem c3_witness :
    (({ project_id := "p", id := some "r" } : Ingest).id = some "r") ∧
    ((create_ingest [] { project_id := "p", id := some "r" } "u").2.id =
      some (if strStartsWith "r" ("p" ++ "::") then "r"
            else "p" ++ "::" ++ "r")) ∧
    (strContains "r" "::" = false) ∧
    (List.lookup "r"
      (create_ingest [] { project_id := "p", id := some "r" } "u").1 =
      none) ∧
    (get_ingest (create_ingest [] { project_id := "p", id := some "r" } "u").1
      "r" = .ok (some (create_ingest []
        { project_id := "p", id := some "r" } "u").2)) := by
  have h1 := (c3_ingest_scoping.1 []
    { project_id := "p", id := some "r" } "r" "u" rfl).1
  have h2 := (c3_ingest_scoping.2
    (create_ingest [] { project_id := "p", id := some "r" } "u").1 "r"
    (by rfl) (by rfl)).1
    (create_ingest [] { project_id := "p", id := some "r" } "u").2 (by rfl)
  exact ⟨rfl, h1, rfl, rfl, h2⟩


theorem lookup_mem {α : Type} (l : List (String × α)) (k : String) (v : α)
    (h : List.lookup k l = some v) : (k, v) ∈ l := by
  induction l with
  | nil => cases h
  | cons a rest ih =>
    obtain ⟨a1, a2⟩ := a
    rw [List.lookup_cons] at h
    cases hk : (k == a1) with
    | true =>
      rw [hk] at h
      have hkeq : k = a1 := by simpa using hk
      have hveq : v = a2 := by
        cases h
        rfl
      subst hkeq
      subst hveq
      exact List.mem_cons_self _ _
    | false =>
      rw [hk] at h
      exact List.mem_cons_of_mem _ (ih h)

theorem symbolByKey_mem (symbols : List Symbol) :
    ∀ p ∈ symbolByKey symbols,
      ∃ s ∈ symbols, s.id = some p.2 ∧ s.symbol_key = p.1 := by
  have main : ∀ (l : List Symbol) (acc : List (String × String)),
      ∀ p ∈ l.foldl
        (fun m s =>
          match s.id with
          | some id => (s.symbol_key, id) :: m
          | none => m) acc,
      p ∈ acc ∨ ∃ s ∈ l, s.id = some p.2 ∧ s.symbol_key = p.1 := by
    intro l
    induction l with
    | nil => intro acc p hp; exact Or.inl hp
    | cons s rest ih =>
      intro acc p hp
      rw [List.foldl_cons] at hp
      cases hid : s.id with
      | none =>
        simp only [hid] at hp
        rcases ih acc p hp with h | ⟨s2, hs2, h2⟩
        · exact Or.inl h
        · exact Or.inr ⟨s2, List.mem_cons_of_mem _ hs2, h2⟩
      | some i =>
        simp only [hid] at hp
        rcases ih ((s.symbol_key, i) :: acc) p hp with h | ⟨s2, hs2, h2⟩
        · rcases List.mem_cons.mp h with h1 | h2
          · subst h1
            exact Or.inr ⟨s, List.mem_cons_self _ _, hid, rfl⟩
          · exact Or.inl h2
        · exact Or.inr ⟨s2, List.mem_cons_of_mem _ hs2, h2⟩
  intro p hp
  rcases main symbols [] p hp with h | h
  · cases h
  · exact h

theorem symbolByQualified_mem (symbols : List Symbol) :
    ∀ p ∈ symbolByQualified symbols, ∃ s ∈ symbols, s.id = some p.2 := by
  have main : ∀ (l : List Symbol) (acc : List (String × String)),
      ∀ p ∈ l.foldl
        (fun m s =>
          match s.id, s.qualified_name with
          | some id, some qualified_name => (qualified_name, id) :: m
          | _, _ => m) acc,
      p ∈ acc ∨ ∃ s ∈ l, s.id = some p.2 := by
    intro l
    induction l with
    | nil => intro acc p hp; exact Or.inl hp
    | cons s rest ih =>
      intro acc p hp
      rw [List.foldl_cons] at hp
      cases hid : s.id with
      | none =>
        simp only [hid] at hp
        rcases ih acc p hp with h | ⟨s2, hs2, h2⟩
        · exact Or.inl h
        · exact Or.inr ⟨s2, List.mem_cons_of_mem _ hs2, h2⟩
      | some i =>
        cases hq : s.qualified_name with
        | none =>
          simp only [hid, hq] at hp
          rcases ih acc p hp with h | ⟨s2, hs2, h2⟩
          · exact Or.inl h
          · exact Or.inr ⟨s2, List.mem_cons_of_mem _ hs2, h2⟩
        | some qn =>
          simp only [hid, hq] at hp
          rcases ih ((qn, i) :: acc) p hp with h | ⟨s2, hs2, h2⟩
          · rcases List.mem_cons.mp h with h1 | h2
            · subst h1
              exact Or.inr ⟨s, List.mem_cons_self _ _, hid⟩
            · exact Or.inl h2
          · exact Or.inr ⟨s2, List.mem_cons_of_mem _ hs2, h2⟩
  intro p hp
  rcases main symbols [] p hp with h | h
  · cases h
  · exact h

theorem symbolKeyToRecordId_mem (symbols : List Symbol) :
    ∀ p ∈ symbolKeyToRecordId symbols,
      ∃ s ∈ symbols, ∃ i, s.id = some i ∧
        p.2 = make_record_id TABLE_SYMBOL i := by
  have main : ∀ (l : List Symbol) (acc : List (String × String)),
      ∀ p ∈ l.foldl
        (fun m s =>
          match s.id with
          | some id => (s.symbol_key, make_record_id TABLE_SYMBOL id) :: m
          | none => m) acc,
      p ∈ acc ∨ ∃ s ∈ l, ∃ i, s.id = some i ∧
        p.2 = make_record_id TABLE_SYMBOL i := by
    intro l
    induction l with
    | nil => intro acc p hp; exact Or.inl hp
    | cons s rest ih =>
      intro acc p hp
      rw [List.foldl_cons] at hp
      cases hid : s.id with
      | none =>
        simp only [hid] at hp
        rcases ih acc p hp with h | ⟨s2, hs2, h2⟩
        · exact Or.inl h
        · exact Or.inr ⟨s2, List.mem_cons_of_mem _ hs2, h2⟩
      | some i =>
        simp only [hid] at hp
        rcases ih _ p hp with h | ⟨s2, hs2, h2⟩
        · rcases List.mem_cons.mp h with h1 | h2
          · subst h1
            exact Or.inr ⟨s, List.mem_cons_self _ _, i, hid, rfl⟩
          · exact Or.inl h2
        · exact Or.inr ⟨s2, List.mem_cons_of_mem _ hs2, h2⟩
  intro p hp
  rcases main symbols [] p hp with h | h
  · cases h
  · exact h

theorem stored_of_lookup_symbolByKey (symbols : List Symbol) (k i : String)
    (h : List.lookup k (symbolByKey symbols) = some i) :
    isStoredSymbolRecord symbols (make_record_id TABLE_SYMBOL i) := by
  rcases symbolByKey_mem symbols (k, i) (lookup_mem _ _ _ h) with
    ⟨s, hs, hid, _⟩
  exact ⟨s, hs, i, hid, rfl⟩

theorem stored_of_lookup_symbolByQualified (symbols : List Symbol)
    (k i : String) (h : List.lookup k (symbolByQualified symbols) = some i) :
    isStoredSymbolRecord symbols (make_record_id TABLE_SYMBOL i) := by
  rcases symbolByQualified_mem symbols (k, i) (lookup_mem _ _ _ h) with
    ⟨s, hs, hid⟩
  exact ⟨s, hs, i, hid, rfl⟩

theorem resolve_symbol_reference_lookup (target : String)
    (language : Option String) (project_id : String)
    (symbol_by_key : List (String × String)) (i : String)
    (h : resolve_symbol_reference target language project_id symbol_by_key =
      some i) :
    ∃ k, List.lookup k symbol_by_key = some i := by
  cases h1 : List.lookup target symbol_by_key with
  | some j =>
    simp only [resolve_symbol_reference, h1] at h
    exact ⟨target, by rw [h1, h]⟩
  | none =>
    simp only [resolve_symbol_reference, h1] at h
    cases language with
    | none => cases h
    | some lang =>
      simp only at h
      by_cases hcs : lang = "csharp"
      · rw [if_pos hcs] at h
        exact ⟨_, h⟩
      · rw [if_neg hcs] at h
        by_cases hrs : lang = "rust"
        · rw [if_pos hrs] at h
          exact ⟨_, h⟩
        · rw [if_neg hrs] at h
          cases h

theorem foldl_family_sound {σ α : Type} (step : σ → α → σ)
    (fam : σ → List RelationRecord) (P : RelationRecord → Prop) :
    ∀ (l : List α) (acc : σ),
      (∀ acc2 x, x ∈ l → (∀ e ∈ fam acc2, P e) →
        ∀ e ∈ fam (step acc2 x), P e) →
      (∀ e ∈ fam acc, P e) → ∀ e ∈ fam (l.foldl step acc), P e := by
  intro l
  induction l with
  | nil => intro acc _ hacc; simpa using hacc
  | cons x rest ih =>
    intro acc hstep hacc
    rw [List.foldl_cons]
    exact ih (step acc x)
      (fun acc2 y hy => hstep acc2 y (List.mem_cons_of_mem _ hy))
      (hstep acc x (List.mem_cons_self _ _) hacc)

theorem flatMap_eq_nil_of_forall {α β : Type} (l : List α) (f : α → List β)
    (h : ∀ x ∈ l, f x = []) : l.flatMap f = [] := by
  induction l with
  | nil => rfl
  | cons x rest ih =>
    rw [List.flatMap_cons, h x (List.mem_cons_self _ _), List.nil_append]
    exact ih (fun y hy => h y (List.mem_cons_of_mem _ hy))

theorem foldl_family_append {σ α : Type} (step : σ → α → σ)
    (fam : σ → List RelationRecord) (contrib : α → List RelationRecord)
    (hstep : ∀ acc x, fam (step acc x) = fam acc ++ contrib x) :
    ∀ (l : List α) (acc : σ),
      fam (l.foldl step acc) = fam acc ++ l.flatMap contrib := by
  intro l
  induction l with
  | nil => intro acc; simp
  | cons x rest ih =>
    intro acc
    rw [List.foldl_cons, ih (step acc x), hstep]
    simp [List.append_assoc]

theorem buildSymbolRelStep_implements
    (sbq sbk : List (String × String)) (pid : String) (iid : Option String)
    (ti : List (String × List String)) (acc : SymbolRelations) (s : Symbol) :
    (buildSymbolRelStep sbq sbk pid iid ti acc s).implements =
      acc.implements ++ implementsContrib sbk pid iid ti s := by
  cases hid : s.id with
  | none => simp [buildSymbolRelStep, implementsContrib, hid]
  | some symbol_id =>
    cases hq : s.qualified_name.bind (fun qn => List.lookup qn ti) with
    | none => simp [buildSymbolRelStep, implementsContrib, hid, hq]
    | some trait_paths =>
      simp [buildSymbolRelStep, implementsContrib, hid, hq]

/-- Claim C7: `implements` edges come only from the parser-provided
`trait_impls` map (which only the rustdoc ingest supplies): for an empty
map — as the C# ingest passes — no `implements` edges are created; in
general the `implements` list is exactly, per stored symbol whose
qualified name is in the map, one edge of kind `trait_impl` per trait
path whose key `make_symbol_key "rust" project_id trait_path` resolves to
a symbol stored in the same ingest. -/
theorem c7_implements_edges (symbols : List Symbol) (project_id : String)
    (ingest_id : Option String) :
    ((build_symbol_relations symbols project_id ingest_id []).implements
      = []) ∧
    (∀ trait_impls,
      (build_symbol_relations symbols project_id ingest_id
        trait_impls).implements =
        symbols.flatMap
          (implementsContrib (symbolByKey symbols) project_id ingest_id
            trait_impls)) ∧
    (∀ trait_impls,
      ∀ e ∈ (build_symbol_relations symbols project_id ingest_id
        trait_impls).implements, e.kind = some "trait_impl") := by
  have hchar : ∀ trait_impls,
      (build_symbol_relations symbols project_id ingest_id
        trait_impls).implements =
      symbols.flatMap
        (implementsContrib (symbolByKey symbols) project_id ingest_id
          trait_impls) := by
    intro ti
    rw [build_symbol_relations]
    rw [foldl_family_append
      (buildSymbolRelStep (symbolByQualified symbols) (symbolByKey symbols)
        project_id ingest_id ti)
      (fun r => r.implements)
      (implementsContrib (symbolByKey symbols) project_id ingest_id ti)
      (fun acc s => buildSymbolRelStep_implements _ _ _ _ _ acc s)
      symbols {}]
    simp
  refine ⟨?_, hchar, ?_⟩
  · rw [hchar []]
    have hnil : ∀ s : Symbol,
        implementsContrib (symbolByKey symbols) project_id ingest_id [] s
          = [] := by
      intro s
      cases hid : s.id <;> cases hq : s.qualified_name <;>
        simp [implementsContrib, hid, hq]
    exact flatMap_eq_nil_of_forall _ _ (fun s _ => hnil s)
  · intro ti e he
    rw [hchar ti] at he
    rcases List.mem_flatMap.mp he with ⟨s, _, hmem⟩
    rw [implementsContrib] at hmem
    rcases hid : s.id with _ | symbol_id <;> rw [hid] at hmem
    · cases hmem
    · rcases hq : s.qualified_name.bind (fun qn => List.lookup qn ti) with
        _ | trait_paths <;> rw [hq] at hmem
      · cases hmem
      · rcases List.mem_filterMap.mp hmem with ⟨tp, _, hmap⟩
        rcases Option.map_eq_some'.mp hmap with ⟨tid, _, hedge⟩
        rw [← hedge]


theorem docBlockStep_see_also_sound (symbols : List Symbol) (pid : String)
    (iid : Option String) (acc : DocBlockRelations) (block : DocBlock)
    (hacc : ∀ e ∈ acc.see_also, isStoredSymbolRecord symbols e.in_id ∧
      isStoredSymbolRecord symbols e.out_id) :
    ∀ e ∈ (buildDocBlockRelStep (symbolByKey symbols) pid iid acc
      block).see_also,
      isStoredSymbolRecord symbols e.in_id ∧
        isStoredSymbolRecord symbols e.out_id := by
  intro e he
  cases hsk : block.symbol_key.bind
      (fun k => List.lookup k (symbolByKey symbols)) with
  | none =>
    simp only [buildDocBlockRelStep, hsk] at he
    exact hacc e he
  | some symbol_id =>
    simp only [buildDocBlockRelStep, hsk] at he
    rcases List.mem_append.mp he with h1 | h2
    · exact hacc e h1
    · rcases List.mem_filterMap.mp h2 with ⟨link, _, hmap⟩
      rcases Option.map_eq_some'.mp hmap with ⟨tid, hres, hedge⟩
      subst hedge
      constructor
      · rcases Option.bind_eq_some.mp hsk with ⟨bk, _, hlk⟩
        exact stored_of_lookup_symbolByKey symbols bk symbol_id hlk
      · rcases resolve_symbol_reference_lookup _ _ _ _ _ hres with ⟨k2, hlk2⟩
        exact stored_of_lookup_symbolByKey symbols k2 tid hlk2

theorem docBlockStep_inherits_sound (symbols : List Symbol) (pid : String)
    (iid : Option String) (acc : DocBlockRelations) (block : DocBlock)
    (hacc : ∀ e ∈ acc.inherits, isStoredSymbolRecord symbols e.in_id ∧
      isStoredSymbolRecord symbols e.out_id) :
    ∀ e ∈ (buildDocBlockRelStep (symbolByKey symbols) pid iid acc
      block).inherits,
      isStoredSymbolRecord symbols e.in_id ∧
        isStoredSymbolRecord symbols e.out_id := by
  intro e he
  cases hsk : block.symbol_key.bind
      (fun k => List.lookup k (symbolByKey symbols)) with
  | none =>
    simp only [buildDocBlockRelStep, hsk] at he
    exact hacc e he
  | some symbol_id =>
    cases hinh : block.inherit_doc with
    | none =>
      simp only [buildDocBlockRelStep, hsk, hinh, List.append_nil] at he
      exact hacc e he
    | some inherit =>
      cases hres : (inherit.cref.or inherit.path).bind
          (fun target => resolve_symbol_reference target block.language
            pid (symbolByKey symbols)) with
      | none =>
        simp only [buildDocBlockRelStep, hsk, hinh, hres,
          List.append_nil] at he
        exact hacc e he
      | some tid =>
        simp only [buildDocBlockRelStep, hsk, hinh, hres] at he
        rcases List.mem_append.mp he with h1 | h2
        · exact hacc e h1
        · have hedge := List.mem_singleton.mp h2
          subst hedge
          constructor
          · rcases Option.bind_eq_some.mp hsk with ⟨bk, _, hlk⟩
            exact stored_of_lookup_symbolByKey symbols bk symbol_id hlk
          · rcases Option.bind_eq_some.mp hres with ⟨target, _, hres2⟩
            rcases resolve_symbol_reference_lookup _ _ _ _ _ hres2 with
              ⟨k2, hlk2⟩
            exact stored_of_lookup_symbolByKey symbols k2 tid hlk2

theorem docBlockStep_references_sound (symbols : List Symbol) (pid : String)
    (iid : Option String) (acc : DocBlockRelations) (block : DocBlock)
    (hacc : ∀ e ∈ acc.references, isStoredSymbolRecord symbols e.in_id ∧
      isStoredSymbolRecord symbols e.out_id) :
    ∀ e ∈ (buildDocBlockRelStep (symbolByKey symbols) pid iid acc
      block).references,
      isStoredSymbolRecord symbols e.in_id ∧
        isStoredSymbolRecord symbols e.out_id := by
  intro e he
  cases hsk : block.symbol_key.bind
      (fun k => List.lookup k (symbolByKey symbols)) with
  | none =>
    simp only [buildDocBlockRelStep, hsk] at he
    exact hacc e he
  | some symbol_id =>
    simp only [buildDocBlockRelStep, hsk] at he
    rcases List.mem_append.mp he with h1 | h2
    · exact hacc e h1
    · rcases List.mem_filterMap.mp h2 with ⟨exc, _, hmap⟩
      rcases Option.map_eq_some'.mp hmap with ⟨tid, hres, hedge⟩
      subst hedge
      constructor
      · rcases Option.bind_eq_some.mp hsk with ⟨bk, _, hlk⟩
        exact stored_of_lookup_symbolByKey symbols bk symbol_id hlk
      · rcases Option.bind_eq_some.mp hres with ⟨key, _, hlk2⟩
        exact stored_of_lookup_symbolByKey symbols key tid hlk2

theorem symbolRelStep_sound (symbols : List Symbol) (pid : String)
    (iid : Option String) (ti : List (String × List String))
    (fam : SymbolRelations → List RelationRecord)
    (hfam : fam = (fun r => r.member_of) ∨ fam = (fun r => r.contains) ∨
      fam = (fun r => r.returns) ∨ fam = (fun r => r.param_types) ∨
      fam = (fun r => r.implements))
    (acc : SymbolRelations) (s : Symbol) (hs : s ∈ symbols)
    (hacc : ∀ e ∈ fam acc, isStoredSymbolRecord symbols e.in_id ∧
      isStoredSymbolRecord symbols e.out_id) :
    ∀ e ∈ fam (buildSymbolRelStep (symbolByQualified symbols)
      (symbolByKey symbols) pid iid ti acc s),
      isStoredSymbolRecord symbols e.in_id ∧
        isStoredSymbolRecord symbols e.out_id := by
  intro e he
  cases hid : s.id with
  | none =>
    rw [buildSymbolRelStep, hid] at he
    exact hacc e he
  | some symbol_id =>
    have hself : isStoredSymbolRecord symbols
        (make_record_id TABLE_SYMBOL symbol_id) :=
      ⟨s, hs, symbol_id, hid, rfl⟩
    have hparent : ∀ parent_id,
        ((s.qualified_name.bind parentOfQualified).bind
          (fun parent => List.lookup parent (symbolByQualified symbols))) =
          some parent_id →
        isStoredSymbolRecord symbols
          (make_record_id TABLE_SYMBOL parent_id) := by
      intro parent_id hpar
      rcases Option.bind_eq_some.mp hpar with ⟨parent, _, hlk⟩
      exact stored_of_lookup_symbolByQualified symbols parent parent_id hlk
    rcases hfam with hf | hf | hf | hf | hf <;> subst hf <;>
      simp only [buildSymbolRelStep, hid] at he
    · -- member_of
      rcases List.mem_append.mp he with h1 | h2
      · exact hacc e h1
      · cases hpar : (s.qualified_name.bind parentOfQualified).bind
            (fun parent => List.lookup parent (symbolByQualified symbols)) with
        | none =>
          simp only [memberAndContainsEdges, hpar] at h2
          cases h2
        | some parent_id =>
          simp only [memberAndContainsEdges, hpar] at h2
          have hedge := List.mem_singleton.mp h2
          subst hedge
          exact ⟨hself, hparent parent_id hpar⟩
    · -- contains
      rcases List.mem_append.mp he with h1 | h2
      · exact hacc e h1
      · cases hpar : (s.qualified_name.bind parentOfQualified).bind
            (fun parent => List.lookup parent (symbolByQualified symbols)) with
        | none =>
          simp only [memberAndContainsEdges, hpar] at h2
          cases h2
        | some parent_id =>
          simp only [memberAndContainsEdges, hpar] at h2
          have hedge := List.mem_singleton.mp h2
          subst hedge
          exact ⟨hparent parent_id hpar, hself⟩
    · -- returns
      rcases List.mem_append.mp he with h1 | h2
      · exact hacc e h1
      · cases hret : (s.return_type.bind (fun ty => ty.symbol_key)).bind
            (fun key => List.lookup key (symbolByKey symbols)) with
        | none =>
          rw [hret] at h2
          cases h2
        | some return_id =>
          rw [hret] at h2
          have hedge := List.mem_singleton.mp h2
          subst hedge
          refine ⟨hself, ?_⟩
          rcases Option.bind_eq_some.mp hret with ⟨key, _, hlk⟩
          exact stored_of_lookup_symbolByKey symbols key return_id hlk
    · -- param_types
      rcases List.mem_append.mp he with h1 | h2
      · exact hacc e h1
      · rcases List.mem_filterMap.mp h2 with ⟨param, _, hmap⟩
        rcases Option.map_eq_some'.mp hmap with ⟨param_id, hres, hedge⟩
        subst hedge
        refine ⟨hself, ?_⟩
        rcases Option.bind_eq_some.mp hres with ⟨key, _, hlk⟩
        exact stored_of_lookup_symbolByKey symbols key param_id hlk
    · -- implements
      rcases List.mem_append.mp he with h1 | h2
      · exact hacc e h1
      · cases himp : s.qualified_name.bind
            (fun qualified_name => List.lookup qualified_name ti) with
        | none =>
          rw [himp] at h2
          cases h2
        | some trait_paths =>
          rw [himp] at h2
          rcases List.mem_filterMap.mp h2 with ⟨tp, _, hmap⟩
          rcases Option.map_eq_some'.mp hmap with ⟨trait_id, hres, hedge⟩
          subst hedge
          exact ⟨hself, stored_of_lookup_symbolByKey symbols _ trait_id hres⟩

theorem build_documents_edges_sound (symbols : List Symbol)
    (blocks : List DocBlock) (pid : String) (iid : Option String) :
    ∀ e ∈ build_documents_edges symbols blocks pid iid,
      isStoredSymbolRecord symbols e.out_id := by
  intro e he
  rcases List.mem_filterMap.mp he with ⟨block, _, hbind⟩
  rcases Option.bind_eq_some.mp hbind with ⟨block_id, _, hbind2⟩
  rcases Option.bind_eq_some.mp hbind2 with ⟨symbol_key, _, hmap⟩
  rcases Option.map_eq_some'.mp hmap with ⟨symbol_id, hlk, hedge⟩
  subst hedge
  rcases symbolKeyToRecordId_mem symbols (symbol_key, symbol_id)
    (lookup_mem _ _ _ hlk) with ⟨s, hs, i, hid, hrid⟩
  exact ⟨s, hs, i, hid, hrid⟩

/-- Claim C4: every derived relation edge resolves both endpoints (for
`documents`, the symbol endpoint) to symbols stored in the same ingest —
edges whose target cannot be resolved are silently dropped by the total
edge-builder functions rather than reported as errors — and concretely, a
doc block whose `see_also` references the unknown target `T:Unknown`
yields zero `see_also`, `inherits` and `references` edges. -/
theorem c4_dangling_edges_dropped (symbols : List Symbol)
    (blocks : List DocBlock) (project_id : String)
    (ingest_id : Option String)
    (trait_impls : List (String × List String)) :
    (∀ e ∈ (build_doc_block_relations symbols blocks project_id
        ingest_id).see_also,
      isStoredSymbolRecord symbols e.in_id ∧
        isStoredSymbolRecord symbols e.out_id) ∧
    (∀ e ∈ (build_doc_block_relations symbols blocks project_id
        ingest_id).inherits,
      isStoredSymbolRecord symbols e.in_id ∧
        isStoredSymbolRecord symbols e.out_id) ∧
    (∀ e ∈ (build_doc_block_relations symbols blocks project_id
        ingest_id).references,
      isStoredSymbolRecord symbols e.in_id ∧
        isStoredSymbolRecord symbols e.out_id) ∧
    (∀ e ∈ (build_symbol_relations symbols project_id ingest_id
        trait_impls).member_of,
      isStoredSymbolRecord symbols e.in_id ∧
        isStoredSymbolRecord symbols e.out_id) ∧
    (∀ e ∈ (build_symbol_relations symbols project_id ingest_id
        trait_impls).contains,
      isStoredSymbolRecord symbols e.in_id ∧
        isStoredSymbolRecord symbols e.out_id) ∧
    (∀ e ∈ (build_symbol_relations symbols project_id ingest_id
        trait_impls).returns,
      isStoredSymbolRecord symbols e.in_id ∧
        isStoredSymbolRecord symbols e.out_id) ∧
    (∀ e ∈ (build_symbol_relations symbols project_id ingest_id
        trait_impls).param_types,
      isStoredSymbolRecord symbols e.in_id ∧
        isStoredSymbolRecord symbols e.out_id) ∧
    (∀ e ∈ (build_symbol_relations symbols project_id ingest_id
        trait_impls).implements,
      isStoredSymbolRecord symbols e.in_id ∧
        isStoredSymbolRecord symbols e.out_id) ∧
    (∀ e ∈ build_documents_edges symbols blocks project_id ingest_id,
      isStoredSymbolRecord symbols e.out_id) ∧
    ((build_doc_block_relations [c4Foo] [c4BlockDangling] "p"
        none).see_also = [] ∧
     (build_doc_block_relations [c4Foo] [c4BlockDangling] "p"
        none).inherits = [] ∧
     (build_doc_block_relations [c4Foo] [c4BlockDangling] "p"
        none).references = []) := by
  have hdoc : ∀ (fam : DocBlockRelations → List RelationRecord),
      fam {} = [] →
      (∀ acc block,
        (∀ e ∈ fam acc, isStoredSymbolRecord symbols e.in_id ∧
          isStoredSymbolRecord symbols e.out_id) →
        ∀ e ∈ fam (buildDocBlockRelStep (symbolByKey symbols) project_id
          ingest_id acc block),
          isStoredSymbolRecord symbols e.in_id ∧
            isStoredSymbolRecord symbols e.out_id) →
      ∀ e ∈ fam (build_doc_block_relations symbols blocks project_id
        ingest_id),
        isStoredSymbolRecord symbols e.in_id ∧
          isStoredSymbolRecord symbols e.out_id := by
    intro fam hbase hstep
    rw [build_doc_block_relations]
    refine foldl_family_sound _ fam _ blocks {}
      (fun acc2 x _ hacc2 => hstep acc2 x hacc2) ?_
    intro e he
    rw [hbase] at he
    cases he
  have hsym : ∀ (fam : SymbolRelations → List RelationRecord),
      fam {} = [] →
      (fam = (fun r => r.member_of) ∨ fam = (fun r => r.contains) ∨
        fam = (fun r => r.returns) ∨ fam = (fun r => r.param_types) ∨
        fam = (fun r => r.implements)) →
      ∀ e ∈ fam (build_symbol_relations symbols project_id ingest_id
        trait_impls),
        isStoredSymbolRecord symbols e.in_id ∧
          isStoredSymbolRecord symbols e.out_id := by
    intro fam hbase hfam
    rw [build_symbol_relations]
    refine foldl_family_sound _ fam _ symbols {}
      (fun acc2 x hx hacc2 =>
        symbolRelStep_sound symbols project_id ingest_id trait_impls fam
          hfam acc2 x hx hacc2) ?_
    intro e he
    rw [hbase] at he
    cases he
  exact ⟨hdoc (fun r => r.see_also) rfl
      (fun acc block hacc =>
        docBlockStep_see_also_sound symbols project_id ingest_id acc block
          hacc),
    hdoc (fun r => r.inherits) rfl
      (fun acc block hacc =>
        docBlockStep_inherits_sound symbols project_id ingest_id acc block
          hacc),
    hdoc (fun r => r.references) rfl
      (fun acc block hacc =>
        docBlockStep_references_sound symbols project_id ingest_id acc block
          hacc),
    hsym (fun r => r.member_of) rfl (Or.inl rfl),
    hsym (fun r => r.contains) rfl (Or.inr (Or.inl rfl)),
    hsym (fun r => r.returns) rfl (Or.inr (Or.inr (Or.inl rfl))),
    hsym (fun r => r.param_types) rfl
      (Or.inr (Or.inr (Or.inr (Or.inl rfl)))),
    hsym (fun r => r.implements) rfl
      (Or.inr (Or.inr (Or.inr (Or.inr rfl)))),
    build_documents_edges_sound symbols blocks project_id ingest_id,
    rfl, rfl, rfl⟩

theorem c4_witness :
    isStoredSymbolRecord [c4Foo]
      ({ id := none, in_id := make_record_id TABLE_SYMBOL "csharp|p|T:Foo",
         out_id := make_record_id TABLE_SYMBOL "csharp|p|T:Foo",
         project_id := "p", ingest_id := none, kind := none,
         extra := none } : RelationRecord).in_id ∧
    isStoredSymbolRecord [c4Foo]
      ({ id := none, in_id := make_record_id TABLE_SYMBOL "csharp|p|T:Foo",
         out_id := make_record_id TABLE_SYMBOL "csharp|p|T:Foo",
         project_id := "p", ingest_id := none, kind := none,
         extra := none } : RelationRecord).out_id :=
  (c4_dangling_edges_dropped [c4Foo] [c4BlockResolved] "p" none []).1
    _ (List.mem_cons_self _ _)


/-- Claim C9: when no symbol with the requested key exists in the project,
`get_symbol_adjacency` returns `Ok` with the default `SymbolAdjacency` —
no symbol, empty doc blocks, doc sources, relation lists and related
symbols, and an all-zero hydration summary — rather than an error. -/
theorem c9_adjacency_missing_symbol (store : DocStoreOps)
    (project_id symbol_key : String) (limit : Nat)
    (h : store.get_symbol_by_project project_id symbol_key = .ok none) :
    get_symbol_adjacency store project_id symbol_key limit =
      .ok { symbol := none
            doc_blocks := []
            doc_sources := []
            hydration_summary :=
              { from_doc_blocks := 0, from_observed_in := 0
                deduped_total := 0 }
            member_of := []
            contains := []
            returns := []
            param_types := []
            see_also := []
            inherits := []
            references := []
            observed_in := []
            related_symbols := [] } := by
  simp only [get_symbol_adjacency, h]

theorem c9_witness :
    (({ get_symbol_by_project := fun _ _ => .ok none
        list_doc_blocks := fun _ _ _ => .ok []
        fetch_adjacency := fun _ _ _ => .ok {}
        list_doc_sources := fun _ _ => .ok []
        list_doc_sources_by_ids := fun _ _ => .ok [] } :
      DocStoreOps).get_symbol_by_project "p" "rust|p|crate::missing" =
        .ok none) ∧
    get_symbol_adjacency
      { get_symbol_by_project := fun _ _ => .ok none
        list_doc_blocks := fun _ _ _ => .ok []
        fetch_adjacency := fun _ _ _ => .ok {}
        list_doc_sources := fun _ _ => .ok []
        list_doc_sources_by_ids := fun _ _ => .ok [] }
      "p" "rust|p|crate::missing" 50 =
      .ok { symbol := none
            doc_blocks := []
            doc_sources := []
            hydration_summary :=
              { from_doc_blocks := 0, from_observed_in := 0
                deduped_total := 0 }
            member_of := []
            contains := []
            returns := []
            param_types := []
            see_also := []
            inherits := []
            references := []
            observed_in := []
            related_symbols := [] } :=
  ⟨rfl, c9_adjacency_missing_symbol _ "p" "rust|p|crate::missing" 50 rfl⟩

theorem regInv_init {E H : Type} (cfg : RegCfg E H) (h0 : H) :
    RegInv cfg h0 (regInit cfg) := by
  refine ⟨?_, ?_, ?_, ?_, ?_, ?_⟩
  · exact Nat.zero_le 1
  · intro _; rfl
  · intro i r _ ht
    cases ht
  · intro h hc
    cases hc
  · intro i r _ ht
    cases ht
  · intro i j r r' _ _ ht _
    cases ht

theorem regInv_benign {E H : Type} (cfg : RegCfg E H) (h0 : H)
    (s : RegState E H) (i : Nat) (ph : TaskPhase E H) (b : Bool)
    (hinv : RegInv cfg h0 s)
    (hnr : ∀ r, ph ≠ TaskPhase.running r)
    (hnd : ∀ r, ph ≠ TaskPhase.done r) :
    RegInv cfg h0
      { s with entryExists := b, tasks := Function.update s.tasks i ph } := by
  refine ⟨hinv.inv_le, hinv.empty_inv, ?_, hinv.ready_eq, ?_, ?_⟩
  · intro j r hj htj
    have htj2 : Function.update s.tasks i ph j = TaskPhase.running r := htj
    by_cases hji : j = i
    · subst hji
      rw [Function.update_same] at htj2
      exact absurd htj2 (hnr r)
    · rw [Function.update_noteq hji] at htj2
      exact hinv.running_ok j r hj htj2
  · intro j r hj htj
    have htj2 : Function.update s.tasks i ph j = TaskPhase.done r := htj
    by_cases hji : j = i
    · subst hji
      rw [Function.update_same] at htj2
      exact absurd htj2 (hnd r)
    · rw [Function.update_noteq hji] at htj2
      exact hinv.done_ok j r hj htj2
  · intro j k r r' hj hk htj htk
    have htj2 : Function.update s.tasks i ph j = TaskPhase.running r := htj
    have htk2 : Function.update s.tasks i ph k = TaskPhase.running r' := htk
    by_cases hji : j = i
    · subst hji
      rw [Function.update_same] at htj2
      exact absurd htj2 (hnr r)
    · by_cases hki : k = i
      · subst hki
        rw [Function.update_same] at htk2
        exact absurd htk2 (hnr r')
      · rw [Function.update_noteq hji] at htj2
        rw [Function.update_noteq hki] at htk2
        exact hinv.running_unique j k r r' hj hk htj2 htk2

theorem regInv_step {E H : Type} (cfg : RegCfg E H) (h0 : H)
    (hb : cfg.builder 0 = .ok h0)
    (hcap : ∀ m, cfg.max_entries = some m → cfg.otherEntries < m)
    {s s' : RegState E H} (hstep : RegStep cfg s s')
    (hinv : RegInv cfg h0 s) : RegInv cfg h0 s' := by
  cases hstep with
  | readHit i hi ht he =>
    exact regInv_benign cfg h0 s i .initPhase s.entryExists hinv
      (fun r h => nomatch h) (fun r h => nomatch h)
  | readMiss i hi ht he =>
    exact regInv_benign cfg h0 s i .writePhase s.entryExists hinv
      (fun r h => nomatch h) (fun r h => nomatch h)
  | writeHit i hi ht he =>
    exact regInv_benign cfg h0 s i .initPhase s.entryExists hinv
      (fun r h => nomatch h) (fun r h => nomatch h)
  | writeCapacity i hi ht he m hm hc =>
    exact absurd (hcap m hm) (Nat.not_lt.mpr hc)
  | writeInsert i hi ht he hc =>
    exact regInv_benign cfg h0 s i .initPhase true hinv
      (fun r h => nomatch h) (fun r h => nomatch h)
  | initReady i hi ht h hc =>
    obtain ⟨hh0, hinv1⟩ := hinv.ready_eq h hc
    refine ⟨hinv.inv_le, hinv.empty_inv, ?_, hinv.ready_eq, ?_, ?_⟩
    · intro j r hj htj
      have htj2 : Function.update s.tasks i (TaskPhase.done (Except.ok h)) j
          = TaskPhase.running r := htj
      by_cases hji : j = i
      · subst hji
        rw [Function.update_same] at htj2
        cases htj2
      · rw [Function.update_noteq hji] at htj2
        exact hinv.running_ok j r hj htj2
    · intro j r hj htj
      have htj2 : Function.update s.tasks i (TaskPhase.done (Except.ok h)) j
          = TaskPhase.done r := htj
      by_cases hji : j = i
      · subst hji
        rw [Function.update_same] at htj2
        injection htj2 with hr
        refine ⟨?_, hinv1⟩
        rw [← hr, hh0]
      · rw [Function.update_noteq hji] at htj2
        exact hinv.done_ok j r hj htj2
    · intro j k r r' hj hk htj htk
      have htj2 : Function.update s.tasks i (TaskPhase.done (Except.ok h)) j
          = TaskPhase.running r := htj
      have htk2 : Function.update s.tasks i (TaskPhase.done (Except.ok h)) k
          = TaskPhase.running r' := htk
      by_cases hji : j = i
      · subst hji
        rw [Function.update_same] at htj2
        cases htj2
      · by_cases hki : k = i
        · subst hki
          rw [Function.update_same] at htk2
          cases htk2
        · rw [Function.update_noteq hji] at htj2
          rw [Function.update_noteq hki] at htk2
          exact hinv.running_unique j k r r' hj hk htj2 htk2
  | initAcquire i hi ht hc =>
    have hzero : s.invocations = 0 := hinv.empty_inv hc
    refine ⟨?_, ?_, ?_, ?_, ?_, ?_⟩
    · show s.invocations + 1 ≤ 1
      omega
    · intro hcell
      have hcell2 : (CellState.building : CellState H) = .empty := hcell
      cases hcell2
    · intro j r hj htj
      have htj2 : Function.update s.tasks i
          (TaskPhase.running (cfg.builder s.invocations)) j
          = TaskPhase.running r := htj
      by_cases hji : j = i
      · subst hji
        rw [Function.update_same] at htj2
        injection htj2 with hr
        refine ⟨?_, rfl, ?_⟩
        · rw [← hr, hzero]
          exact hb
        · show s.invocations + 1 = 1
          omega
      · rw [Function.update_noteq hji] at htj2
        obtain ⟨_, hbuild, _⟩ := hinv.running_ok j r hj htj2
        rw [hc] at hbuild
        cases hbuild
    · intro h hcell
      have hcell2 : (CellState.building : CellState H) = .ready h := hcell
      cases hcell2
    · intro j r hj htj
      have htj2 : Function.update s.tasks i
          (TaskPhase.running (cfg.builder s.invocations)) j
          = TaskPhase.done r := htj
      by_cases hji : j = i
      · subst hji
        rw [Function.update_same] at htj2
        cases htj2
      · rw [Function.update_noteq hji] at htj2
        obtain ⟨_, hone⟩ := hinv.done_ok j r hj htj2
        rw [hzero] at hone
        cases hone
    · intro j k r r' hj hk htj htk
      have htj2 : Function.update s.tasks i
          (TaskPhase.running (cfg.builder s.invocations)) j
          = TaskPhase.running r := htj
      have htk2 : Function.update s.tasks i
          (TaskPhase.running (cfg.builder s.invocations)) k
          = TaskPhase.running r' := htk
      by_cases hji : j = i
      · by_cases hki : k = i
        · rw [hji, hki]
        · rw [Function.update_noteq hki] at htk2
          obtain ⟨_, hbuild, _⟩ := hinv.running_ok k r' hk htk2
          rw [hc] at hbuild
          cases hbuild
      · rw [Function.update_noteq hji] at htj2
        obtain ⟨_, hbuild, _⟩ := hinv.running_ok j r hj htj2
        rw [hc] at hbuild
        cases hbuild
  | finishOk i hi h ht =>
    obtain ⟨hok, hbuild, hone⟩ := hinv.running_ok i (.ok h) hi ht
    injection hok with hh0
    refine ⟨hinv.inv_le, ?_, ?_, ?_, ?_, ?_⟩
    · intro hcell
      have hcell2 : (CellState.ready h : CellState H) = .empty := hcell
      cases hcell2
    · intro j r hj htj
      have htj2 : Function.update s.tasks i (TaskPhase.done (Except.ok h)) j
          = TaskPhase.running r := htj
      by_cases hji : j = i
      · subst hji
        rw [Function.update_same] at htj2
        cases htj2
      · rw [Function.update_noteq hji] at htj2
        exact absurd (hinv.running_unique j i r (.ok h) hj hi htj2 ht) hji
    · intro h' hcell
      have hcell2 : (CellState.ready h : CellState H) = .ready h' := hcell
      injection hcell2 with hh
      refine ⟨?_, hone⟩
      rw [← hh]
      exact hh0
    · intro j r hj htj
      have htj2 : Function.update s.tasks i (TaskPhase.done (Except.ok h)) j
          = TaskPhase.done r := htj
      by_cases hji : j = i
      · subst hji
        rw [Function.update_same] at htj2
        injection htj2 with hr
        refine ⟨?_, hone⟩
        rw [← hr, hh0]
      · rw [Function.update_noteq hji] at htj2
        exact hinv.done_ok j r hj htj2
    · intro j k r r' hj hk htj htk
      have htj2 : Function.update s.tasks i (TaskPhase.done (Except.ok h)) j
          = TaskPhase.running r := htj
      by_cases hji : j = i
      · subst hji
        rw [Function.update_same] at htj2
        cases htj2
      · rw [Function.update_noteq hji] at htj2
        exact absurd (hinv.running_unique j i r (.ok h) hj hi htj2 ht) hji
  | finishErr i hi e ht =>
    obtain ⟨hok, _, _⟩ := hinv.running_ok i (.error e) hi ht
    cases hok

/-- Claim C2 (amended): under `cfg.numTasks` concurrent `get_or_init`
callers for one tenant, when the first builder invocation succeeds with
handle `h0` and the capacity bound does not block the tenant, every
execution in which all callers have returned performed exactly one
builder invocation, and every caller received that same handle `h0`.
(When the builder fails, the failure is not cached and waiting callers
re-invoke the builder — see the counterexample.) -/
theorem c2_single_flight_success {E H : Type} (cfg : RegCfg E H) (h0 : H)
    (hb : cfg.builder 0 = .ok h0)
    (hcap : ∀ m, cfg.max_entries = some m → cfg.otherEntries < m)
    (s : RegState E H) (hreach : RegReaches cfg (regInit cfg) s)
    (hdone : regAllDone cfg s) (hn : 0 < cfg.numTasks) :
    s.invocations = 1 ∧
      ∀ i, i < cfg.numTasks → s.tasks i = .done (.ok h0) := by
  have hinv : RegInv cfg h0 s := by
    clear hdone hn
    induction hreach with
    | refl => exact regInv_init cfg h0
    | tail hab hbc ih => exact regInv_step cfg h0 hb hcap hbc ih
  obtain ⟨r0, hr0⟩ := hdone 0 hn
  obtain ⟨_, hinv1⟩ := hinv.done_ok 0 r0 hn hr0
  refine ⟨hinv1, ?_⟩
  intro i hi
  obtain ⟨r, hr⟩ := hdone i hi
  obtain ⟨hokr, _⟩ := hinv.done_ok i r hi hr
  rw [hr, hokr]


/-- Counterexample to claim C2 as stated: with two concurrent callers and
a failing builder, `get_or_try_init` does not cache the failure, so the
second caller re-runs the builder — there is a reachable execution in
which all callers have returned but the builder was invoked twice, not
exactly once. -/
theorem c2_counterexample :
    ¬ (∀ s : RegState Unit Unit,
        RegReaches c2FailCfg (regInit c2FailCfg) s →
        regAllDone c2FailCfg s → s.invocations = 1) := by
  intro hclaim
  have hreach : RegReaches c2FailCfg (regInit c2FailCfg) c2FailFinal :=
    Relation.ReflTransGen.head (RegStep.readMiss _ 0 (by decide) rfl rfl)
      (Relation.ReflTransGen.head
        (RegStep.writeInsert _ 0 (by decide) rfl rfl (fun m hm => nomatch hm))
        (Relation.ReflTransGen.head
          (RegStep.initAcquire _ 0 (by decide) rfl rfl)
          (Relation.ReflTransGen.head
            (RegStep.finishErr _ 0 (by decide) () rfl)
            (Relation.ReflTransGen.head
              (RegStep.readHit _ 1 (by decide) rfl rfl)
              (Relation.ReflTransGen.head
                (RegStep.initAcquire _ 1 (by decide) rfl rfl)
                (Relation.ReflTransGen.head
                  (RegStep.finishErr _ 1 (by decide) () rfl)
                  Relation.ReflTransGen.refl))))))
  have hdone : regAllDone c2FailCfg c2FailFinal := by
    intro i hi
    have hi2 : i < 2 := hi
    interval_cases i
    · exact ⟨Except.error (RegErr.buildFailed ()), rfl⟩
    · exact ⟨Except.error (RegErr.buildFailed ()), rfl⟩
  have h2 : (2 : Nat) = 1 := hclaim c2FailFinal hreach hdone
  exact absurd h2 (by decide)

theorem c2_witness :
    c2OkCfg.builder 0 = Except.ok 7 ∧
    c2OkFinal.invocations = 1 ∧
    c2OkFinal.tasks 0 = TaskPhase.done (Except.ok 7) := by
  have hreach : RegReaches c2OkCfg (regInit c2OkCfg) c2OkFinal :=
    Relation.ReflTransGen.head (RegStep.readMiss _ 0 (by decide) rfl rfl)
      (Relation.ReflTransGen.head
        (RegStep.writeInsert _ 0 (by decide) rfl rfl (fun m hm => nomatch hm))
        (Relation.ReflTransGen.head
          (RegStep.initAcquire _ 0 (by decide) rfl rfl)
          (Relation.ReflTransGen.head
            (RegStep.finishOk _ 0 (by decide) 7 rfl)
            Relation.ReflTransGen.refl)))
  have hdone : regAllDone c2OkCfg c2OkFinal := by
    intro i hi
    have hi2 : i < 1 := hi
    interval_cases i
    exact ⟨Except.ok 7, rfl⟩
  have h := c2_single_flight_success c2OkCfg 7 rfl (fun m hm => nomatch hm)
    c2OkFinal hreach hdone (by decide)
  exact ⟨rfl, h.1, h.2 0 (by decide)⟩


theorem c7_witness :
    (build_symbol_relations ([] : List Symbol) "p" none []).implements
      = [] :=
  (c7_implements_edges [] "p" none).1

end Docx
